import Mathlib

/-!
Verification development for the rlci repository.

The definitions below are a shallow embedding of the pipeline engine
(`src/rlci/pipelines.py`), of the null infrastructure it runs against in
test mode (`src/rlci/infrastructure.py`), and of the DAG job controller
(`src/jobctrlsamples/sample2/jobcontroller2.py`).  Stateful Python code is
embedded as explicit state passing: `EngM` is a state-plus-exception monad
over `EngineState`, where an exception (Python `raise`) carries the state
reached so far, so that `finally` blocks and context-manager exits can be
modelled faithfully.
-/

namespace RLCI

/-- A token of a step command: a literal string or a `{"variable": n}` reference. -/
inductive Tok where
  | lit (s : String)
  | var (n : String)
deriving DecidableEq, Repr

/-- A pipeline step: `{"command": [...], "variable": optional-name}`. -/
structure Step where
  command : List Tok
  varName : Option String
deriving DecidableEq, Repr

/-- A pipeline: `{"name": ..., "steps": [...]}`. -/
structure Pipeline where
  pname : String
  steps : List Step
deriving DecidableEq, Repr

/-- A configured response of `Process.create_null` (`infrastructure.py`).
Missing keys fall back to the defaults `returncode: 0`, `output: []`,
mirroring `dict(response, **responses.pop(i))`. -/
structure Response where
  command : List String
  output : Option (List String)
  returncode : Option Int
deriving DecidableEq, Repr

/-- Events captured by the `Events` sink. -/
inductive Event where
  | process (cmd : List String)
  | stdoutLine (s : String)
  | serverResponse (s : String)
deriving DecidableEq, Repr

/-- Python exceptions that the engine code can raise. -/
inductive Err where
  | commandFailure
  | keyError (key : String)
deriving DecidableEq, Repr

/-- A stage command record in the DB (`DB.add_stage_command`):
`{"returncode": None, "output": [], "command": command}`. -/
structure StageCommand where
  command : List String
  output : List String
  returncode : Option Int
deriving DecidableEq, Repr

/-- Instrumentation: the DB mutations performed during a run, in order. -/
inductive DBOp where
  | createStageCommands
  | addStageCommand (cmd : List String)
  | addStageCommandOutput (line : String)
  | setStageCommandReturncode (rc : Int)
deriving DecidableEq, Repr

/-- The whole observable state threaded through a test-mode run: the pipeline
store, the null process responses, the captured events, the DB stage-command
log (plus its operation trace), the in-memory filesystem, and the bytes the
socket server wrote together with its accept count. -/
structure EngineState where
  pipelines : List (String × Pipeline)
  responses : List Response
  events : List Event
  stageCommands : List StageCommand
  dbOps : List DBOp
  files : List (String × String)
  serverWrites : List String
  accepts : Nat
deriving DecidableEq, Repr

/-- State-and-exception monad: a `raise` keeps the state reached so far. -/
def EngM (α : Type) : Type := EngineState → Except Err α × EngineState

instance : Monad EngM where
  pure a := fun s => (Except.ok a, s)
  bind m f := fun s =>
    match m s with
    | (Except.ok a, s1) => f a s1
    | (Except.error e, s1) => (Except.error e, s1)

/-- Python `raise`. -/
def throwErr {α : Type} (e : Err) : EngM α := fun s => (Except.error e, s)

/-- Python `try ... finally ...`: the finaliser runs on every exit path; an
exception raised by the finaliser replaces the body's exception. -/
def tryFinally {α : Type} (body : EngM α) (fin : EngM Unit) : EngM α := fun s =>
  match body s with
  | (Except.ok a, s1) =>
    match fin s1 with
    | (Except.ok _, s2) => (Except.ok a, s2)
    | (Except.error e2, s2) => (Except.error e2, s2)
  | (Except.error e, s1) =>
    match fin s1 with
    | (Except.ok _, s2) => (Except.error e, s2)
    | (Except.error e2, s2) => (Except.error e2, s2)

/-- `except CommandFailure:` — catches only `CommandFailure`. -/
def catchCF {α : Type} (body : EngM α) (handler : EngM α) : EngM α := fun s =>
  match body s with
  | (Except.ok a, s1) => (Except.ok a, s1)
  | (Except.error Err.commandFailure, s1) => handler s1
  | (Except.error e, s1) => (Except.error e, s1)

/-- First-match lookup in an association list (Python dict read). -/
def lookupStr {β : Type} : List (String × β) → String → Option β
  | [], _ => none
  | (k, v) :: rest, key => if k = key then some v else lookupStr rest key

/-- `line.rstrip("\r\n")` from `Process.run`. -/
def rstripCRLF (s : String) : String :=
  String.mk ((s.data.reverse.dropWhile (fun c => c = Char.ofNat 10 ∨ c = Char.ofNat 13)).reverse)

/-- Python `repr` of a string (quoting only; escape sequences are not needed
for the commands this repository builds). -/
def pyReprStr (s : String) : String := "\x27" ++ s ++ "\x27"

/-- Python `repr` of a list of strings, e.g. `['mktemp', '-d']`. -/
def pyReprList (l : List String) : String :=
  "[" ++ String.intercalate ", " (l.map pyReprStr) ++ "]"

/-- Response selection of the null subprocess (`Process.create_null`): the
first configured response whose `command` equals the spawned command is
consumed; otherwise the defaults apply.  Returns `((returncode, output),
remaining responses)`. -/
def popResponse : List Response → List String → (Int × List String) × List Response
  | [], _ => ((0, []), [])
  | r :: rs, cmd =>
    if r.command = cmd then
      ((r.returncode.getD 0, r.output.getD []), rs)
    else
      let (res, rest) := popResponse rs cmd
      (res, r :: rest)

/-- `Terminal.print_line` via the null terminal with an events listener:
emits one `STDOUT` event. -/
def printLine (text : String) : EngM Unit := fun s =>
  (Except.ok (), { s with events := s.events ++ [Event.stdoutLine text] })

/-- DB mutators (`DB` in `pipelines.py`), instrumented with an op trace. -/
def dbCreateStageCommands : EngM Unit := fun s =>
  (Except.ok (), { s with stageCommands := [],
                          dbOps := s.dbOps ++ [DBOp.createStageCommands] })

/-- `DB.add_stage_command`. -/
def dbAddStageCommand (cmd : List String) : EngM Unit := fun s =>
  (Except.ok (), { s with
    stageCommands := s.stageCommands ++ [{ command := cmd, output := [], returncode := none }],
    dbOps := s.dbOps ++ [DBOp.addStageCommand cmd] })

/-- `DB.add_stage_command_output`: appends to the most recent stage command. -/
def dbAddStageCommandOutput (line : String) : EngM Unit := fun s =>
  (Except.ok (), { s with
    stageCommands :=
      match s.stageCommands.reverse with
      | [] => s.stageCommands
      | last :: revInit => (revInit.reverse) ++ [{ last with output := last.output ++ [line] }],
    dbOps := s.dbOps ++ [DBOp.addStageCommandOutput line] })

/-- `DB.set_stage_command_returncode`: sets it on the most recent stage command. -/
def dbSetStageCommandReturncode (rc : Int) : EngM Unit := fun s =>
  (Except.ok (), { s with
    stageCommands :=
      match s.stageCommands.reverse with
      | [] => s.stageCommands
      | last :: revInit => (revInit.reverse) ++ [{ last with returncode := some rc }],
    dbOps := s.dbOps ++ [DBOp.setStageCommandReturncode rc] })

/-- `DB.save_pipeline` (dict overwrite; first-match lookup makes the newest
binding win). -/
def dbSavePipeline (name : String) (p : Pipeline) : EngM Unit := fun s =>
  (Except.ok (), { s with pipelines := (name, p) :: s.pipelines })

/-- `DB.get_pipeline`: `self.pipelines[name]` — a missing key raises `KeyError`. -/
def dbGetPipeline (name : String) : EngM Pipeline := fun s =>
  match lookupStr s.pipelines name with
  | some p => (Except.ok p, s)
  | none => (Except.error (Err.keyError name), s)

/-- `Filesystem.write` (in-memory variant stores into a dict). -/
def fsWrite (path contents : String) : EngM Unit := fun s =>
  (Except.ok (), { s with files := (path, contents) :: s.files })

/-- `Process.run` of the null process with an events listener: emits the
`PROCESS` event first, then consumes the matching configured response; each
output line is delivered `rstrip`-ped of trailing CR/LF. -/
def procPopen (cmd : List String) : EngM (Int × List String) := fun s =>
  let res := popResponse s.responses cmd
  (Except.ok (res.1.1, res.1.2.map rstripCRLF),
   { s with events := s.events ++ [Event.process cmd], responses := res.2 })

/-- A raised Python expression without state effects, lifted into `EngM`. -/
def liftExcept {α : Type} (r : Except Err α) : EngM α := fun s => (r, s)

/-- The `log` callback of `PipelineStageProcess.run`: print the line and
record it on the current stage command. -/
def logLine (line : String) : EngM Unit := do
  printLine line
  dbAddStageCommandOutput line

/-- Deliver all output lines through `log`, in order. -/
def logLines : List String → EngM Unit
  | [] => pure ()
  | l :: ls => do
    logLine l
    logLines ls

/-- `PipelineStageProcess.run`: print the repr of the command, record the
stage command, run the process (delivering each line to the logger), record
the return code, and raise `CommandFailure` on a non-zero exit.  Returns the
lines handed to the caller's `output` callback. -/
def pspRun (command : List String) : EngM (List String) := do
  printLine (pyReprList command)
  dbAddStageCommand command
  let res ← procPopen command
  logLines res.2
  dbSetStageCommandReturncode res.1
  if res.1 ≠ 0 then throwErr Err.commandFailure else pure res.2

/-- `SlurpMixin.slurp` on `PipelineStageProcess`: collect the output lines
and join them with the empty separator. -/
def pspSlurp (command : List String) : EngM String := do
  let lines ← pspRun command
  pure (String.join lines)

/-- The `python3 -c` chdir shim of `ProcessInDirectory.create_command`. -/
def shimStr : String :=
  "import sys; import os; os.chdir(sys.argv[1]); os.execvp(sys.argv[2], sys.argv[2:])"

/-- `ProcessInDirectory.create_command(command, directory)`. -/
def wrapCommand (command : List String) (directory : String) : List String :=
  ["python3", "-c", shimStr, directory] ++ command

/-- `ProcessInDirectory.run` (its process is the `PipelineStageProcess`). -/
def pidRun (directory : String) (command : List String) : EngM (List String) :=
  pspRun (wrapCommand command directory)

/-- `SlurpMixin.slurp` on `ProcessInDirectory`. -/
def pidSlurp (directory : String) (command : List String) : EngM String := do
  let lines ← pspRun (wrapCommand command directory)
  pure (String.join lines)

/-- `Workspace.create_create_command()`. -/
def workspaceCreateCommand : List String := ["mktemp", "-d"]

/-- `with Workspace(PipelineStageProcess(...)) as workspace:` — `__enter__`
slurps `mktemp -d` (if that raises, `__exit__` never runs); `__exit__` runs
`rm -rf <workspace>` on every exit path of the body. -/
def withWorkspace (body : String → EngM Unit) : EngM Unit := do
  let ws ← pspSlurp workspaceCreateCommand
  tryFinally (body ws) (do
    let _ ← pspRun ["rm", "-rf", ws]
    pure ())

/-- Token resolution of `StageExecution.run`: a literal passes through, a
variable reference is looked up in the variable dict; a missing key raises
`KeyError` (leftmost reference first). -/
def resolveTokens : List Tok → List (String × String) → Except Err (List String)
  | [], _ => Except.ok []
  | Tok.lit str :: ts, vars =>
    match resolveTokens ts vars with
    | Except.ok rest => Except.ok (str :: rest)
    | Except.error e => Except.error e
  | Tok.var n :: ts, vars =>
    match lookupStr vars n with
    | some val =>
      match resolveTokens ts vars with
      | Except.ok rest => Except.ok (val :: rest)
      | Except.error e => Except.error e
    | none => Except.error (Err.keyError n)

/-- The step loop of `StageExecution.run`, threading the variable dict: a
step without `variable` runs the command; a capturing step slurps it and
binds the joined output. -/
def runStepsV : List Step → String → List (String × String) → EngM (List (String × String))
  | [], _, vars => pure vars
  | st :: rest, dir, vars => do
    let cmd ← liftExcept (resolveTokens st.command vars)
    match st.varName with
    | none => do
      let _ ← pidRun dir cmd
      runStepsV rest dir vars
    | some v => do
      let out ← pidSlurp dir cmd
      runStepsV rest dir ((v, out) :: vars)

/-- `StageExecution.run`: reset the stage-command log, then run all steps in
a fresh workspace. -/
def stageExecutionRun (p : Pipeline) : EngM Unit := do
  dbCreateStageCommands
  withWorkspace (fun ws => do
    let _ ← runStepsV p.steps ws []
    pure ())

/-- Rendering of a nullable return code in the report f-string. -/
def rcRepr : Option Int → String
  | none => "None"
  | some i => toString i

/-- The report block written for one stage command. -/
def scBlock (sc : StageCommand) : List String :=
  ("<h2><pre>" ++ pyReprList sc.command ++ "<pre></h2>") ::
  ("<p><b>returncode: " ++ rcRepr sc.returncode ++ "</b></p>") ::
  "<pre>" :: (sc.output ++ ["</pre>"])

/-- The report lines built in the `finally` of `Engine.trigger`. -/
def reportLines (name : String) (scs : List StageCommand) : List String :=
  ("<h1>Last run pipeline: " ++ name ++ "</h1>") :: (scs.map scBlock).flatten

/-- The `finally` of `Engine.trigger`: write the HTML report. -/
def writeReport (name : String) : EngM Unit := fun s =>
  (Except.ok (), { s with files :=
    ("/opt/rlci/html/index.html",
     String.intercalate "\n" (reportLines name s.stageCommands)) :: s.files })

/-- `Engine.trigger`: look up the pipeline (raises `KeyError` when absent,
before the `try` block), announce it, run the stage, translate only
`CommandFailure` into `False` plus a `FAIL` line, and always write the
report. -/
def engineTrigger (name : String) : EngM Bool := do
  let p ← dbGetPipeline name
  printLine ("Triggered " ++ p.pname)
  tryFinally
    (catchCF
      (do
        stageExecutionRun p
        pure true)
      (do
        printLine "FAIL"
        pure false))
    (writeReport name)

/-- Python `str` of a boolean. -/
def pyBoolStr (b : Bool) : String := if b then "True" else "False"

/-- `EngineServer.handle_request`: trigger the pipeline named by the request
bytes and answer with `str(successful)`. -/
def engineHandleRequest (request : String) : EngM String := do
  let b ← engineTrigger request
  pure (pyBoolStr b)

/-- `s.accept()` of `UnixDomainSocketServer.start`. -/
def serverAccept : EngM Unit := fun s =>
  (Except.ok (), { s with accepts := s.accepts + 1 })

/-- `self.notify("SERVER_RESPONSE", response)`. -/
def notifyServerResponse (response : String) : EngM Unit := fun s =>
  (Except.ok (), { s with events := s.events ++ [Event.serverResponse response] })

/-- `self.write_object(connection, response)` — `connection.sendall(response)`. -/
def connSendall (response : String) : EngM Unit := fun s =>
  (Except.ok (), { s with serverWrites := s.serverWrites ++ [response] })

/-- `UnixDomainSocketServer.start` with the null socket: accept exactly one
connection, read the one simulated request, invoke the registered handler
once, emit one `SERVER_RESPONSE` event, write that response, and return. -/
def serverStart (request : String) (handler : String → EngM String) : EngM Unit := do
  serverAccept
  let response ← handler request
  notifyServerResponse response
  connSendall response

/-- `EngineServer.start` wired to an `Engine`, as in
`Engine.trigger_in_test_mode`. -/
def engineServerStart (request : String) : EngM Unit :=
  serverStart request engineHandleRequest

/-- `rlci_pipeline()` from `pipelines.py`. -/
def rlciPipelineDef : Pipeline :=
  { pname := "RLCIPipeline",
    steps :=
      [ { command := [Tok.lit "git", Tok.lit "clone",
                      Tok.lit "git@github.com:rickardlindberg/rlci.git", Tok.lit "."],
          varName := none },
        { command := [Tok.lit "git", Tok.lit "merge", Tok.lit "--no-ff", Tok.lit "-m",
                      Tok.lit "Integrate.", Tok.lit "origin/BRANCH"],
          varName := none },
        { command := [Tok.lit "./zero.py", Tok.lit "build"], varName := none },
        { command := [Tok.lit "git", Tok.lit "push"], varName := none },
        { command := [Tok.lit "git", Tok.lit "rev-parse", Tok.lit "HEAD"],
          varName := some "version" },
        { command := [Tok.lit "./zero.py", Tok.lit "deploy", Tok.var "version"],
          varName := none } ] }

/-- The built-in `test-pipeline` saved by `Engine.__init__`. -/
def testPipelineDef : Pipeline := { pname := "TEST-PIPELINE", steps := [] }

/-- The initial state of `Engine.trigger_in_test_mode pipeline`, after the
test DB save of `"test"` and the two saves of `Engine.__init__`. -/
def initState (p : Pipeline) (rs : List Response) : EngineState :=
  { pipelines := [("test-pipeline", testPipelineDef), ("rlci", rlciPipelineDef), ("test", p)],
    responses := rs, events := [], stageCommands := [], dbOps := [],
    files := [], serverWrites := [], accepts := 0 }

/-! ### The DAG job controller (`src/jobctrlsamples/sample2/jobcontroller2.py`)

A `Task` is modelled by its name, its `_wait_for` list (which
`Task.wait_for` keeps identical to `_dependants`), its two whitelists, and
whether its work raises (turning its status to `FAILED`).  One round of the
controller loop (`_process_tasks`) promotes waiting tasks and then runs the
whole dispatched batch to completion (`run_until_complete`); within a batch
the finish order is arbitrary, so it is supplied by a schedule oracle that
must be a permutation. -/

/-- Terminal statuses of a task (`OK`, `FAILED`, `SKIPPED`). -/
inductive JStatus where
  | ok
  | failed
  | skipped
deriving DecidableEq, Repr

/-- A task of the job controller. -/
structure JTask where
  name : String
  waitFor : List String
  ignoreFail : List String
  ignoreSkip : List String
  wouldFail : Bool
deriving DecidableEq, Repr

/-- A finished task together with its terminal status. -/
abbrev FinTask := JTask × JStatus

/-- Observable controller events: a task's work is dispatched, or a task
reaches a terminal state. -/
inductive JEvent where
  | dispatched (name : String)
  | finishedTask (name : String) (st : JStatus)
deriving DecidableEq, Repr

/-- Controller state between rounds (running and to-start are empty there). -/
structure JCState where
  waiting : List JTask
  finished : List FinTask
  trace : List JEvent
deriving DecidableEq, Repr

/-- Names of the finished tasks, in finish order. -/
def finishedNames (fins : List FinTask) : List String :=
  fins.map (fun f => f.1.name)

/-- `JobController._predecessors_not_finished`. -/
def predecessorsNotFinished (fins : List FinTask) (t : JTask) : Bool :=
  t.waitFor.any (fun w => !((finishedNames fins).contains w))

/-- `JobController._predecessors_has_failed_or_skipped`: a finished task in
the wait list is skipped and not in `_run_on_skip`, or failed and not in
`_run_on_fail`. -/
def predFailedOrSkipped (fins : List FinTask) (t : JTask) : Bool :=
  (fins.any (fun f =>
    t.waitFor.contains f.1.name && f.2 == JStatus.skipped && !(t.ignoreSkip.contains f.1.name))) ||
  (fins.any (fun f =>
    t.waitFor.contains f.1.name && f.2 == JStatus.failed && !(t.ignoreFail.contains f.1.name)))

/-- The status a dispatched task's work produces (`Task.run`). -/
def workStatus (t : JTask) : JStatus :=
  if t.wouldFail then JStatus.failed else JStatus.ok

/-- The promotion pass (`_move_tasks_from_wait_queue` together with
`_can_start`): iterate over the waiting list in order; a task whose
predecessors are not all finished stays; one with a failed/skipped
non-ignored predecessor is skipped and finished immediately (visible to
later tasks of the same pass); otherwise it joins the start list.  Returns
the updated finished list, the start list, and the updated trace. -/
def promote : List JTask → List FinTask → List JEvent →
    List FinTask × List JTask × List JEvent
  | [], fins, tr => (fins, [], tr)
  | t :: rest, fins, tr =>
    if predecessorsNotFinished fins t then
      promote rest fins tr
    else if predFailedOrSkipped fins t then
      promote rest (fins ++ [(t, JStatus.skipped)])
        (tr ++ [JEvent.finishedTask t.name JStatus.skipped])
    else
      let (fins2, starts, tr2) := promote rest fins tr
      (fins2, t :: starts, tr2)

/-- One `_process_tasks` round: promote, filter the wait queue, dispatch the
start batch (in list order) and run it to completion, with the in-batch
finish order chosen by `pick` (required to be a permutation of the batch). -/
def stepRound (pick : List JTask → List JTask) (s : JCState) : JCState :=
  let res := promote s.waiting s.finished s.trace
  let fins1 := res.1
  let starts := res.2.1
  let tr1 := res.2.2
  let waiting1 :=
    (s.waiting.filter (fun t => !((starts.map JTask.name).contains t.name))).filter
      (fun t => !((finishedNames fins1).contains t.name))
  let done := pick starts
  { waiting := waiting1,
    finished := fins1 ++ done.map (fun t => (t, workStatus t)),
    trace := (tr1 ++ starts.map (fun t => JEvent.dispatched t.name)) ++
      done.map (fun t => JEvent.finishedTask t.name (workStatus t)) }

/-- Iterated rounds; `pick k` orders the batch finished in round `k`. -/
def runRounds (pick : Nat → List JTask → List JTask) : Nat → JCState → JCState
  | 0, s => s
  | Nat.succ n, s => runRounds (fun k => pick (k + 1)) n (stepRound (pick 0) s)

/-- `JobController.add_tasks` followed by `start`: all tasks wait initially. -/
def initJC (tasks : List JTask) : JCState :=
  { waiting := tasks, finished := [], trace := [] }

/-- The whole controller run, for `n` rounds. -/
def jcRun (pick : Nat → List JTask → List JTask) (n : Nat) (tasks : List JTask) : JCState :=
  runRounds pick n (initJC tasks)

/-- `B` directly waits for `A`: some task of the job named `b` lists `a`. -/
def DirectDep (tasks : List JTask) (b a : String) : Prop :=
  ∃ t ∈ tasks, t.name = b ∧ a ∈ t.waitFor

/-- `B` transitively depends on `A` via `waitFor` edges. -/
def TransDep (tasks : List JTask) : String → String → Prop :=
  Relation.TransGen (DirectDep tasks)

/-- A terminal event for `a` occurs in the trace. -/
def FinBefore (tr : List JEvent) (a : String) : Prop :=
  ∃ st, JEvent.finishedTask a st ∈ tr

/-- The event concerns task `b`: its dispatch or its terminal event. -/
def evIsFor (e : JEvent) (b : String) : Prop :=
  e = JEvent.dispatched b ∨ ∃ st, e = JEvent.finishedTask b st

/-- Dependency soundness of a trace, read newest-first: every event for a
task is preceded (somewhere earlier, i.e. in the tail) by a terminal event
for each of its direct `waitFor` predecessors. -/
def RTrOK (tasks : List JTask) : List JEvent → Prop
  | [] => True
  | e :: older =>
    (∀ b, evIsFor e b → ∀ a, DirectDep tasks b a →
      ∃ st, JEvent.finishedTask a st ∈ older) ∧ RTrOK tasks older

/-- Dependency soundness of a trace in emission order. -/
def TraceOK (tasks : List JTask) (tr : List JEvent) : Prop :=
  RTrOK tasks tr.reverse

/-- Every dispatched task passed both `_can_start` checks against some
earlier stage of the finished list. -/
def DispOK (tasks : List JTask) (fins : List FinTask) (tr : List JEvent) : Prop :=
  ∀ b, JEvent.dispatched b ∈ tr →
    ∃ t finsC d, t ∈ tasks ∧ t.name = b ∧ finsC ++ d = fins ∧
      predecessorsNotFinished finsC t = false ∧ predFailedOrSkipped finsC t = false

/-- Invariant tying the finished list to the trace, maintained across the
promotion pass and across rounds. -/
structure PromInv (tasks : List JTask) (fins : List FinTask) (tr : List JEvent) : Prop where
  finIff : ∀ a, a ∈ finishedNames fins ↔ FinBefore tr a
  trOK : TraceOK tasks tr
  finMem : ∀ f ∈ fins, f.1 ∈ tasks
  finNodup : (finishedNames fins).Nodup
  finEvIff : ∀ a st, JEvent.finishedTask a st ∈ tr ↔ ∃ f, f ∈ fins ∧ f.1.name = a ∧ f.2 = st
  finDisp : ∀ f ∈ fins, f.2 ≠ JStatus.skipped → JEvent.dispatched f.1.name ∈ tr
  dispOK : DispOK tasks fins tr

/-- Full controller invariant between rounds. -/
structure JCInv (tasks : List JTask) (s : JCState) : Prop where
  prom : PromInv tasks s.finished s.trace
  waitMem : ∀ t ∈ s.waiting, t ∈ tasks
  waitNodup : (s.waiting.map JTask.name).Nodup
  waitNotFin : ∀ t ∈ s.waiting, t.name ∉ finishedNames s.finished

/-- The state after `PipelineStageProcess.run`, for reuse in statements. -/
def pspState (c : List String) (s : EngineState) : EngineState :=
  { s with
    events := s.events ++ Event.stdoutLine (pyReprList c) :: Event.process c ::
      ((popResponse s.responses c).1.2.map rstripCRLF).map Event.stdoutLine,
    responses := (popResponse s.responses c).2,
    stageCommands := s.stageCommands ++
      [{ command := c, output := (popResponse s.responses c).1.2.map rstripCRLF,
         returncode := some (popResponse s.responses c).1.1 }],
    dbOps := s.dbOps ++ DBOp.addStageCommand c ::
      (((popResponse s.responses c).1.2.map rstripCRLF).map DBOp.addStageCommandOutput ++
       [DBOp.setStageCommandReturncode (popResponse s.responses c).1.1]) }

/-- The state after `DB.create_stage_commands` at the top of a stage run. -/
def postCreate (s : EngineState) : EngineState :=
  { s with stageCommands := [], dbOps := s.dbOps ++ [DBOp.createStageCommands] }

/-- The `PROCESS` event payloads of a trace, in order. -/
def processEvents (evs : List Event) : List (List String) :=
  evs.filterMap (fun e =>
    match e with
    | Event.process c => some c
    | _ => none)

/-- One complete DB block for one stage command: the command is appended,
then its output lines, then exactly one return code. -/
def IsBlock (b : List DBOp) : Prop :=
  ∃ (cmd : List String) (outs : List String) (rc : Int),
    b = DBOp.addStageCommand cmd ::
      (outs.map DBOp.addStageCommandOutput ++ [DBOp.setStageCommandReturncode rc])

/-- A computation whose DB-operation trace extends the state's by whole
blocks only. -/
def BlockyOps {α : Type} (m : EngM α) : Prop :=
  ∀ s, ∃ bs : List (List DBOp),
    (m s).2.dbOps = s.dbOps ++ bs.flatten ∧ ∀ b ∈ bs, IsBlock b

/-- A computation whose DB-operation trace is one `createStageCommands`
followed by whole blocks. -/
def CreateBlocky {α : Type} (m : EngM α) : Prop :=
  ∀ s, ∃ bs : List (List DBOp),
    (m s).2.dbOps = s.dbOps ++ DBOp.createStageCommands :: bs.flatten ∧ ∀ b ∈ bs, IsBlock b

/-- The answers the null process gives to a sequence of spawned commands. -/
def procAnswers : List Response → List (List String) → List (Int × List String)
  | _, [] => []
  | rs, c :: cs => (popResponse rs c).1 :: procAnswers (popResponse rs c).2 cs

/-- Two configured response lists are equivalent when they answer every
command sequence identically. -/
def ProcEquiv (rs1 rs2 : List Response) : Prop :=
  ∀ cs, procAnswers rs1 cs = procAnswers rs2 cs

/-- Two engine states that the engine cannot distinguish: equal everywhere,
with equivalent (not necessarily equal) configured responses. -/
def StEquiv (s1 s2 : EngineState) : Prop :=
  s1.pipelines = s2.pipelines ∧ s1.events = s2.events ∧
  s1.stageCommands = s2.stageCommands ∧ s1.dbOps = s2.dbOps ∧
  s1.files = s2.files ∧ s1.serverWrites = s2.serverWrites ∧
  s1.accepts = s2.accepts ∧ ProcEquiv s1.responses s2.responses

/-- A computation whose result and state evolution are invariant under
response equivalence. -/
def Preserves {α : Type} (m : EngM α) : Prop :=
  ∀ s1 s2, StEquiv s1 s2 → (m s1).1 = (m s2).1 ∧ StEquiv (m s1).2 (m s2).2

/-- The identity finish order: a batch is finished in dispatch order. -/
def pickId : Nat → List JTask → List JTask := fun _ l => l

/-- Concrete two-task chain: `B` waits for `A`, both succeed. -/
def chainTasks : List JTask :=
  [⟨"A", [], [], [], false⟩, ⟨"B", ["A"], [], [], false⟩]

/-- Concrete two-task chain whose first task fails: `B` waits for `A`. -/
def failChainTasks : List JTask :=
  [⟨"A", [], [], [], true⟩, ⟨"B", ["A"], [], [], false⟩]

/-- Concrete three-task chain probing the skip cascade: `G` fails, `P`
waits for `G` but lists it in `ignoreFail`, and `B` waits for `P`. -/
def cascadeTasks : List JTask :=
  [⟨"G", [], [], [], true⟩, ⟨"P", ["G"], ["G"], [], false⟩,
   ⟨"B", ["P"], [], [], false⟩]

/-! ### Characterization lemmas for the engine embedding -/

theorem EngM.bind_def {α β : Type} (m : EngM α) (f : α → EngM β) (s : EngineState) :
    (m >>= f) s =
      match m s with
      | (Except.ok a, s1) => f a s1
      | (Except.error e, s1) => (Except.error e, s1) := rfl

theorem EngM.pure_def {α : Type} (a : α) (s : EngineState) :
    (pure a : EngM α) s = (Except.ok a, s) := rfl

theorem EngM.bind_ok {α β : Type} {m : EngM α} {s s1 : EngineState} {a : α}
    (f : α → EngM β) (h : m s = (Except.ok a, s1)) : (m >>= f) s = f a s1 := by
  rw [EngM.bind_def, h]

theorem EngM.bind_error {α β : Type} {m : EngM α} {s s1 : EngineState} {e : Err}
    (f : α → EngM β) (h : m s = (Except.error e, s1)) :
    (m >>= f) s = (Except.error e, s1) := by
  rw [EngM.bind_def, h]

theorem printLine_eq (text : String) (s : EngineState) :
    printLine text s =
      (Except.ok (), { s with events := s.events ++ [Event.stdoutLine text] }) := rfl

theorem dbCreate_eq (s : EngineState) :
    dbCreateStageCommands s = (Except.ok (), postCreate s) := rfl

theorem dbAddCmd_eq (cmd : List String) (s : EngineState) :
    dbAddStageCommand cmd s =
      (Except.ok (), { s with
        stageCommands := s.stageCommands ++ [{ command := cmd, output := [], returncode := none }],
        dbOps := s.dbOps ++ [DBOp.addStageCommand cmd] }) := rfl

theorem procPopen_eq (cmd : List String) (s : EngineState) :
    procPopen cmd s =
      (Except.ok ((popResponse s.responses cmd).1.1,
                  (popResponse s.responses cmd).1.2.map rstripCRLF),
       { s with events := s.events ++ [Event.process cmd],
                responses := (popResponse s.responses cmd).2 }) := rfl

/-- Appending output lines to the most recent stage command (no-op on an
empty log, matching the embedding of `add_stage_command_output`). -/
def appendLastOut (scs : List StageCommand) (ls : List String) : List StageCommand :=
  match scs.reverse with
  | [] => scs
  | last :: revInit => revInit.reverse ++ [{ last with output := last.output ++ ls }]

/-- Setting the return code on the most recent stage command. -/
def setLastRc (scs : List StageCommand) (rc : Int) : List StageCommand :=
  match scs.reverse with
  | [] => scs
  | last :: revInit => revInit.reverse ++ [{ last with returncode := some rc }]

theorem appendLastOut_snoc (scs : List StageCommand) (last : StageCommand)
    (ls : List String) :
    appendLastOut (scs ++ [last]) ls = scs ++ [{ last with output := last.output ++ ls }] := by
  simp [appendLastOut]

theorem setLastRc_snoc (scs : List StageCommand) (last : StageCommand) (rc : Int) :
    setLastRc (scs ++ [last]) rc = scs ++ [{ last with returncode := some rc }] := by
  simp [setLastRc]

theorem dbAddOut_eq (line : String) (s : EngineState) :
    dbAddStageCommandOutput line s =
      (Except.ok (), { s with
        stageCommands := appendLastOut s.stageCommands [line],
        dbOps := s.dbOps ++ [DBOp.addStageCommandOutput line] }) := by
  rw [dbAddStageCommandOutput, appendLastOut]

theorem dbSetRc_eq (rc : Int) (s : EngineState) :
    dbSetStageCommandReturncode rc s =
      (Except.ok (), { s with
        stageCommands := setLastRc s.stageCommands rc,
        dbOps := s.dbOps ++ [DBOp.setStageCommandReturncode rc] }) := by
  rw [dbSetStageCommandReturncode, setLastRc]

theorem appendLastOut_nil (scs : List StageCommand) : appendLastOut scs [] = scs := by
  match h : scs.reverse with
  | [] =>
    have h0 : scs = [] := by simpa using congrArg List.reverse h
    subst h0
    rfl
  | last :: revInit =>
    have h0 : scs = revInit.reverse ++ [last] := by simpa using congrArg List.reverse h
    subst h0
    simp [appendLastOut_snoc]

theorem appendLastOut_appendLastOut (scs : List StageCommand) (l : String)
    (ls : List String) :
    appendLastOut (appendLastOut scs [l]) ls = appendLastOut scs (l :: ls) := by
  match h : scs.reverse with
  | [] =>
    have h0 : scs = [] := by simpa using congrArg List.reverse h
    subst h0
    rfl
  | last :: revInit =>
    have h0 : scs = revInit.reverse ++ [last] := by simpa using congrArg List.reverse h
    subst h0
    simp [appendLastOut_snoc]

theorem logLine_eq (l : String) (s : EngineState) :
    logLine l s =
      (Except.ok (), { s with
        events := s.events ++ [Event.stdoutLine l],
        stageCommands := appendLastOut s.stageCommands [l],
        dbOps := s.dbOps ++ [DBOp.addStageCommandOutput l] }) := by
  rw [logLine, EngM.bind_ok _ (printLine_eq l s)]
  exact dbAddOut_eq l _

/-- Full behaviour of the logging callback over a list of lines. -/
theorem logLines_eq (ls : List String) (s : EngineState) :
    logLines ls s =
      (Except.ok (), { s with
        events := s.events ++ ls.map Event.stdoutLine,
        stageCommands := appendLastOut s.stageCommands ls,
        dbOps := s.dbOps ++ ls.map DBOp.addStageCommandOutput }) := by
  induction ls generalizing s with
  | nil =>
    cases s
    simp [logLines, EngM.pure_def, appendLastOut_nil]
  | cons l ls ih =>
    rw [logLines, EngM.bind_ok _ (logLine_eq l s), ih]
    simp [appendLastOut_appendLastOut]

/-- Full behaviour of `PipelineStageProcess.run`: one `STDOUT` repr line, one
stage-command record, one `PROCESS` event, the logged output lines, the
recorded return code, and a `CommandFailure` iff it is non-zero. -/
theorem pspRun_eq (c : List String) (s : EngineState) :
    pspRun c s =
      ((if (popResponse s.responses c).1.1 ≠ 0 then Except.error Err.commandFailure
        else Except.ok ((popResponse s.responses c).1.2.map rstripCRLF)),
       { s with
         events := s.events ++ Event.stdoutLine (pyReprList c) :: Event.process c ::
           ((popResponse s.responses c).1.2.map rstripCRLF).map Event.stdoutLine,
         responses := (popResponse s.responses c).2,
         stageCommands := s.stageCommands ++
           [{ command := c, output := (popResponse s.responses c).1.2.map rstripCRLF,
              returncode := some (popResponse s.responses c).1.1 }],
         dbOps := s.dbOps ++ DBOp.addStageCommand c ::
           (((popResponse s.responses c).1.2.map rstripCRLF).map DBOp.addStageCommandOutput ++
            [DBOp.setStageCommandReturncode (popResponse s.responses c).1.1]) }) := by
  rw [pspRun, EngM.bind_ok _ (printLine_eq (pyReprList c) s)]
  rw [EngM.bind_ok _ (dbAddCmd_eq c _)]
  rw [EngM.bind_ok _ (procPopen_eq c _)]
  rw [EngM.bind_ok _ (logLines_eq _ _)]
  rw [EngM.bind_ok _ (dbSetRc_eq _ _)]
  by_cases hc : (popResponse s.responses c).1.1 = 0
  · simp [hc, EngM.pure_def, appendLastOut_snoc, setLastRc_snoc]
  · simp [hc, throwErr, appendLastOut_snoc, setLastRc_snoc]

theorem pspRun_ok (c : List String) (s : EngineState)
    (h : (popResponse s.responses c).1.1 = 0) :
    pspRun c s = (Except.ok ((popResponse s.responses c).1.2.map rstripCRLF), pspState c s) := by
  rw [pspRun_eq, pspState]
  simp [h]

theorem pspRun_fail (c : List String) (s : EngineState)
    (h : (popResponse s.responses c).1.1 ≠ 0) :
    pspRun c s = (Except.error Err.commandFailure, pspState c s) := by
  rw [pspRun_eq, pspState]
  simp [h]

theorem pspSlurp_ok (c : List String) (s : EngineState)
    (h : (popResponse s.responses c).1.1 = 0) :
    pspSlurp c s =
      (Except.ok (String.join ((popResponse s.responses c).1.2.map rstripCRLF)),
       pspState c s) := by
  rw [pspSlurp, EngM.bind_ok _ (pspRun_ok c s h)]
  rfl

theorem pspSlurp_fail (c : List String) (s : EngineState)
    (h : (popResponse s.responses c).1.1 ≠ 0) :
    pspSlurp c s = (Except.error Err.commandFailure, pspState c s) := by
  rw [pspSlurp, EngM.bind_error _ (pspRun_fail c s h)]

theorem serverAccept_eq (s : EngineState) :
    serverAccept s = (Except.ok (), { s with accepts := s.accepts + 1 }) := rfl

/-- Behaviour of `UnixDomainSocketServer.start` for an arbitrary handler:
one accepted connection, one handler invocation on the one request, then on
success exactly one `SERVER_RESPONSE` event followed by exactly one write of
that response; a handler exception propagates with no event and no write. -/
theorem serverStart_run (request : String) (handler : String → EngM String)
    (s : EngineState) :
    serverStart request handler s =
      match handler request { s with accepts := s.accepts + 1 } with
      | (Except.ok r, s1) =>
        (Except.ok (), { s1 with events := s1.events ++ [Event.serverResponse r],
                                 serverWrites := s1.serverWrites ++ [r] })
      | (Except.error e, s1) => (Except.error e, s1) := by
  rw [serverStart, EngM.bind_ok _ (serverAccept_eq s)]
  cases hh : handler request { s with accepts := s.accepts + 1 } with
  | mk res s1 =>
    cases res with
    | ok r =>
      rw [EngM.bind_ok _ hh]
      rfl
    | error e =>
      rw [EngM.bind_error _ hh]

theorem tryFinally_ok {α : Type} {body : EngM α} {fin : EngM Unit}
    {s s1 s2 : EngineState} {a : α}
    (h : body s = (Except.ok a, s1)) (h2 : fin s1 = (Except.ok (), s2)) :
    tryFinally body fin s = (Except.ok a, s2) := by
  simp [tryFinally, h, h2]

theorem tryFinally_error {α : Type} {body : EngM α} {fin : EngM Unit}
    {s s1 s2 : EngineState} {e : Err}
    (h : body s = (Except.error e, s1)) (h2 : fin s1 = (Except.ok (), s2)) :
    tryFinally body fin s = (Except.error e, s2) := by
  simp [tryFinally, h, h2]

theorem tryFinally_ok_error {α : Type} {body : EngM α} {fin : EngM Unit}
    {s s1 s2 : EngineState} {a : α} {e2 : Err}
    (h : body s = (Except.ok a, s1)) (h2 : fin s1 = (Except.error e2, s2)) :
    tryFinally body fin s = (Except.error e2, s2) := by
  simp [tryFinally, h, h2]

theorem catchCF_ok {α : Type} {body : EngM α} {hnd : EngM α} {s s1 : EngineState} {a : α}
    (h : body s = (Except.ok a, s1)) :
    catchCF body hnd s = (Except.ok a, s1) := by
  rw [catchCF, h]

theorem catchCF_cf {α : Type} {body : EngM α} {hnd : EngM α} {s s1 : EngineState}
    (h : body s = (Except.error Err.commandFailure, s1)) :
    catchCF body hnd s = hnd s1 := by
  rw [catchCF, h]

theorem catchCF_keyError {α : Type} {body : EngM α} {hnd : EngM α} {s s1 : EngineState}
    {k : String} (h : body s = (Except.error (Err.keyError k), s1)) :
    catchCF body hnd s = (Except.error (Err.keyError k), s1) := by
  rw [catchCF, h]

theorem writeReport_eq (name : String) (s : EngineState) :
    writeReport name s =
      (Except.ok (), { s with files :=
        ("/opt/rlci/html/index.html",
         String.intercalate "\n" (reportLines name s.stageCommands)) :: s.files }) := rfl

theorem dbGetPipeline_none (name : String) (s : EngineState)
    (h : lookupStr s.pipelines name = none) :
    dbGetPipeline name s = (Except.error (Err.keyError name), s) := by
  rw [dbGetPipeline, h]

theorem dbGetPipeline_some (name : String) (s : EngineState) (p : Pipeline)
    (h : lookupStr s.pipelines name = some p) :
    dbGetPipeline name s = (Except.ok p, s) := by
  rw [dbGetPipeline, h]

/-- Claim C10: a single call to `UnixDomainSocketServer.start` accepts
exactly one connection, reads one request, invokes the registered handler
exactly once, and — when the handler returns — emits exactly one
`SERVER_RESPONSE` event, writes that one response, and returns; it never
loops to accept another connection, and an exception raised by the handler
propagates out of `start` with no response event and no write. -/
theorem c10_server_start_single (request : String) (handler : String → EngM String)
    (s : EngineState) :
    serverStart request handler s =
      match handler request { s with accepts := s.accepts + 1 } with
      | (Except.ok r, s1) =>
        (Except.ok (), { s1 with events := s1.events ++ [Event.serverResponse r],
                                 serverWrites := s1.serverWrites ++ [r] })
      | (Except.error e, s1) => (Except.error e, s1) :=
  serverStart_run request handler s

/-- Claim C1 (counterexample): triggering the unknown pipeline name
`does-not-exist` through the engine server does not reply with the bytes
`False`; the `KeyError` raised by `DB.get_pipeline` escapes, nothing is
written on the socket, no event is emitted and no run is started. -/
theorem c1_counterexample :
    (engineServerStart "does-not-exist" (initState testPipelineDef [])).2.serverWrites = [] ∧
    (engineServerStart "does-not-exist" (initState testPipelineDef [])).2.events = [] ∧
    (engineServerStart "does-not-exist" (initState testPipelineDef [])).2.dbOps = [] ∧
    (engineServerStart "does-not-exist" (initState testPipelineDef [])).1 =
      Except.error (Err.keyError "does-not-exist") :=
  ⟨rfl, rfl, rfl, rfl⟩

/-- Claim C1 (amended): for every trigger request whose payload names a
pipeline absent from the store, the engine server does not reply at all —
the `KeyError` from `DB.get_pipeline` propagates out of the server loop; no
`SERVER_RESPONSE` event is emitted, nothing is written to the connection,
no run is started and no workspace-create command is executed (the only
state change is the accepted connection). -/
theorem c1_unknown_pipeline_raises (request : String) (s : EngineState)
    (h : lookupStr s.pipelines request = none) :
    engineServerStart request s =
      (Except.error (Err.keyError request), { s with accepts := s.accepts + 1 }) := by
  rw [engineServerStart, serverStart_run]
  have hb : ({ s with accepts := s.accepts + 1 } : EngineState).pipelines = s.pipelines := rfl
  have hh : engineHandleRequest request { s with accepts := s.accepts + 1 } =
      (Except.error (Err.keyError request), { s with accepts := s.accepts + 1 }) := by
    rw [engineHandleRequest]
    rw [EngM.bind_error]
    rw [engineTrigger]
    rw [EngM.bind_error]
    exact dbGetPipeline_none request _ (hb ▸ h)
  rw [hh]

/-- Witness for the amended claim C1 at the request `does-not-exist`. -/
theorem c1_unknown_pipeline_raises_witness :
    lookupStr (initState testPipelineDef []).pipelines "does-not-exist" = none ∧
    engineServerStart "does-not-exist" (initState testPipelineDef []) =
      (Except.error (Err.keyError "does-not-exist"),
       { initState testPipelineDef [] with
         accepts := (initState testPipelineDef []).accepts + 1 }) :=
  ⟨rfl, c1_unknown_pipeline_raises "does-not-exist" (initState testPipelineDef []) rfl⟩

/-- Claim C5: if `mktemp -d` exits non-zero, the trigger returns `False`,
`FAIL` is printed after the `mktemp` events, and no `rm -rf` release command
is ever emitted for that run — the events added by the trigger are exactly
the `Triggered` line, the `mktemp` repr/`PROCESS`/output events, and `FAIL`. -/
theorem c5_acquire_failure_no_release (name : String) (s : EngineState) (p : Pipeline)
    (hp : lookupStr s.pipelines name = some p)
    (hrc : (popResponse s.responses workspaceCreateCommand).1.1 ≠ 0) :
    (engineTrigger name s).1 = Except.ok false ∧
    (engineTrigger name s).2.events =
      s.events ++ Event.stdoutLine ("Triggered " ++ p.pname) ::
        Event.stdoutLine (pyReprList workspaceCreateCommand) ::
        Event.process workspaceCreateCommand ::
        (((popResponse s.responses workspaceCreateCommand).1.2.map rstripCRLF).map
          Event.stdoutLine ++ [Event.stdoutLine "FAIL"]) ∧
    (∀ ws, Event.process ["rm", "-rf", ws] ∈ (engineTrigger name s).2.events →
      Event.process ["rm", "-rf", ws] ∈ s.events) := by
  have hstage : stageExecutionRun p
      { s with events := s.events ++ [Event.stdoutLine ("Triggered " ++ p.pname)] } =
      (Except.error Err.commandFailure,
       pspState workspaceCreateCommand
         (postCreate { s with events := s.events ++ [Event.stdoutLine ("Triggered " ++ p.pname)] })) := by
    rw [stageExecutionRun, EngM.bind_ok _ (dbCreate_eq _), withWorkspace]
    exact EngM.bind_error _ (pspSlurp_fail workspaceCreateCommand _ hrc)
  have hcatch : catchCF
      (stageExecutionRun p >>= fun _ => (pure true : EngM Bool))
      (printLine "FAIL" >>= fun _ => (pure false : EngM Bool))
      { s with events := s.events ++ [Event.stdoutLine ("Triggered " ++ p.pname)] } =
      (Except.ok false,
       { pspState workspaceCreateCommand
           (postCreate { s with events := s.events ++ [Event.stdoutLine ("Triggered " ++ p.pname)] }) with
         events := (pspState workspaceCreateCommand
           (postCreate { s with
             events := s.events ++ [Event.stdoutLine ("Triggered " ++ p.pname)] })).events ++
           [Event.stdoutLine "FAIL"] }) := by
    rw [catchCF_cf (EngM.bind_error _ hstage)]
    rw [EngM.bind_ok _ (printLine_eq "FAIL" _)]
    rw [EngM.pure_def]
  have hrun : engineTrigger name s =
      (Except.ok false,
       { s with
         events := s.events ++ Event.stdoutLine ("Triggered " ++ p.pname) ::
           Event.stdoutLine (pyReprList workspaceCreateCommand) ::
           Event.process workspaceCreateCommand ::
           (((popResponse s.responses workspaceCreateCommand).1.2.map rstripCRLF).map
             Event.stdoutLine ++ [Event.stdoutLine "FAIL"]),
         responses := (popResponse s.responses workspaceCreateCommand).2,
         stageCommands :=
           [{ command := workspaceCreateCommand,
              output := (popResponse s.responses workspaceCreateCommand).1.2.map rstripCRLF,
              returncode := some (popResponse s.responses workspaceCreateCommand).1.1 }],
         dbOps := s.dbOps ++ DBOp.createStageCommands :: DBOp.addStageCommand workspaceCreateCommand ::
           (((popResponse s.responses workspaceCreateCommand).1.2.map rstripCRLF).map
             DBOp.addStageCommandOutput ++
            [DBOp.setStageCommandReturncode (popResponse s.responses workspaceCreateCommand).1.1]),
         files := ("/opt/rlci/html/index.html",
           String.intercalate "\n" (reportLines name
             [{ command := workspaceCreateCommand,
                output := (popResponse s.responses workspaceCreateCommand).1.2.map rstripCRLF,
                returncode := some (popResponse s.responses workspaceCreateCommand).1.1 }])) ::
           s.files }) := by
    rw [engineTrigger, EngM.bind_ok _ (dbGetPipeline_some name s p hp)]
    rw [EngM.bind_ok _ (printLine_eq _ s)]
    refine Eq.trans (tryFinally_ok hcatch (writeReport_eq name _)) ?_
    simp [pspState, postCreate]
  rw [hrun]
  refine ⟨rfl, rfl, ?_⟩
  intro ws hmem
  simp only [List.mem_append, List.mem_cons, List.mem_map, workspaceCreateCommand] at hmem
  rcases hmem with h0 | h0 | h0 | h0 | h0
  · exact h0
  · exact absurd h0 (by simp)
  · exact absurd h0 (by simp)
  · exact absurd h0 (by
      intro hcon
      injection hcon with hlist
      rw [List.cons.injEq] at hlist
      exact absurd hlist.1 (by decide))
  · rcases h0 with h0 | h0
    · rcases h0 with ⟨l, -, hl⟩
      exact absurd hl (by simp)
    · simp at h0

theorem liftExcept_eq {α : Type} (r : Except Err α) (s : EngineState) :
    liftExcept r s = (r, s) := rfl

theorem pidSlurp_ok (dir : String) (c : List String) (s : EngineState)
    (h : (popResponse s.responses (wrapCommand c dir)).1.1 = 0) :
    pidSlurp dir c s =
      (Except.ok (String.join ((popResponse s.responses (wrapCommand c dir)).1.2.map rstripCRLF)),
       pspState (wrapCommand c dir) s) := by
  rw [pidSlurp, EngM.bind_ok _ (pspRun_ok _ _ h)]
  rfl

theorem pidRun_ok (dir : String) (c : List String) (s : EngineState)
    (h : (popResponse s.responses (wrapCommand c dir)).1.1 = 0) :
    pidRun dir c s =
      (Except.ok ((popResponse s.responses (wrapCommand c dir)).1.2.map rstripCRLF),
       pspState (wrapCommand c dir) s) := by
  rw [pidRun]
  exact pspRun_ok _ _ h

theorem resolveTokens_length (toks : List Tok) (vars : List (String × String))
    (l : List String) (h : resolveTokens toks vars = Except.ok l) :
    l.length = toks.length := by
  induction toks generalizing l with
  | nil =>
    rw [resolveTokens] at h
    cases h
    rfl
  | cons t ts ih =>
    cases t with
    | lit str =>
      rw [resolveTokens] at h
      cases hrec : resolveTokens ts vars with
      | ok rest =>
        rw [hrec] at h
        cases h
        simp [ih rest hrec]
      | error e =>
        rw [hrec] at h
        cases h
    | var n =>
      rw [resolveTokens] at h
      cases hlk : lookupStr vars n with
      | some val =>
        rw [hlk] at h
        cases hrec : resolveTokens ts vars with
        | ok rest =>
          rw [hrec] at h
          cases h
          simp [ih rest hrec]
        | error e =>
          rw [hrec] at h
          cases h
      | none =>
        rw [hlk] at h
        cases h

theorem resolveTokens_var (toks : List Tok) (vars : List (String × String))
    (l : List String) (v : String) (h : resolveTokens toks vars = Except.ok l)
    (i : Nat) (h1 : i < toks.length) (h2 : i < l.length)
    (hv : toks.get ⟨i, h1⟩ = Tok.var v) :
    lookupStr vars v = some (l.get ⟨i, h2⟩) := by
  induction toks generalizing l i with
  | nil => exact absurd h1 (by simp)
  | cons t ts ih =>
    cases t with
    | lit str =>
      rw [resolveTokens] at h
      cases hrec : resolveTokens ts vars with
      | ok rest =>
        rw [hrec] at h
        cases h
        cases i with
        | zero => exact absurd hv (by simp)
        | succ j =>
          exact ih rest hrec j (by simpa using h1) (by simpa using h2) (by simpa using hv)
      | error e =>
        rw [hrec] at h
        cases h
    | var n =>
      rw [resolveTokens] at h
      cases hlk : lookupStr vars n with
      | some val =>
        rw [hlk] at h
        cases hrec : resolveTokens ts vars with
        | ok rest =>
          rw [hrec] at h
          cases h
          cases i with
          | zero =>
            have hn : n = v := by simpa using hv
            subst hn
            simpa using hlk
          | succ j =>
            exact ih rest hrec j (by simpa using h1) (by simpa using h2) (by simpa using hv)
        | error e =>
          rw [hrec] at h
          cases h
      | none =>
        rw [hlk] at h
        cases h

/-- A capturing step binds the joined output for the remaining steps. -/
theorem runStepsV_capture (ctoks : List Tok) (v : String) (rest : List Step)
    (dir : String) (vars : List (String × String)) (s : EngineState) (c : List String)
    (hres : resolveTokens ctoks vars = Except.ok c)
    (h0 : (popResponse s.responses (wrapCommand c dir)).1.1 = 0) :
    runStepsV (Step.mk ctoks (some v) :: rest) dir vars s =
      runStepsV rest dir
        ((v, String.join ((popResponse s.responses (wrapCommand c dir)).1.2.map rstripCRLF)) :: vars)
        (pspState (wrapCommand c dir) s) := by
  rw [runStepsV]
  rw [EngM.bind_ok _ (show liftExcept (resolveTokens (Step.mk ctoks (some v)).command vars) s =
    (Except.ok c, s) from by rw [liftExcept_eq]; simp [hres])]
  dsimp only
  rw [EngM.bind_ok _ (pidSlurp_ok dir c s h0)]

theorem EngM.bind_assoc {α β γ : Type} (m : EngM α) (f : α → EngM β) (g : β → EngM γ) :
    (m >>= f) >>= g = m >>= fun a => f a >>= g := by
  funext s
  cases hm : m s with
  | mk r s1 =>
    cases r with
    | ok a =>
      cases hf : f a s1 with
      | mk r2 s2 =>
        cases r2 with
        | ok b =>
          have l1 : ((m >>= f) >>= g) s = g b s2 :=
            EngM.bind_ok g (by rw [EngM.bind_ok f hm, hf])
          have l2 : (m >>= fun x => f x >>= g) s = g b s2 := by
            rw [EngM.bind_ok _ hm]
            exact EngM.bind_ok g hf
          rw [l1, l2]
        | error e =>
          have l1 : ((m >>= f) >>= g) s = (Except.error e, s2) :=
            EngM.bind_error g (by rw [EngM.bind_ok f hm, hf])
          have l2 : (m >>= fun x => f x >>= g) s = (Except.error e, s2) := by
            rw [EngM.bind_ok _ hm]
            exact EngM.bind_error g hf
          rw [l1, l2]
    | error e =>
      rw [EngM.bind_error g (EngM.bind_error f hm), EngM.bind_error _ hm]

theorem pidSlurp_fail (dir : String) (c : List String) (s : EngineState)
    (h : (popResponse s.responses (wrapCommand c dir)).1.1 ≠ 0) :
    pidSlurp dir c s = (Except.error Err.commandFailure, pspState (wrapCommand c dir) s) := by
  rw [pidSlurp, EngM.bind_error _ (pspRun_fail _ _ h)]

theorem pidRun_fail (dir : String) (c : List String) (s : EngineState)
    (h : (popResponse s.responses (wrapCommand c dir)).1.1 ≠ 0) :
    pidRun dir c s = (Except.error Err.commandFailure, pspState (wrapCommand c dir) s) := by
  rw [pidRun]
  exact pspRun_fail _ _ h

/-- The step loop splits over list append like a monadic bind. -/
theorem runStepsV_append (a b : List Step) (dir : String)
    (vars : List (String × String)) (s : EngineState) :
    runStepsV (a ++ b) dir vars s =
      (runStepsV a dir vars >>= fun v2 => runStepsV b dir v2) s := by
  induction a generalizing vars s with
  | nil => rfl
  | cons st a2 ih =>
    show runStepsV (st :: (a2 ++ b)) dir vars s = _
    simp only [runStepsV]
    rw [EngM.bind_assoc]
    cases hres : resolveTokens st.command vars with
    | error e =>
      rw [EngM.bind_error _ (liftExcept_eq (Except.error e) s),
          EngM.bind_error _ (liftExcept_eq (Except.error e) s)]
    | ok c =>
      rw [EngM.bind_ok _ (liftExcept_eq (Except.ok c) s),
          EngM.bind_ok _ (liftExcept_eq (Except.ok c) s)]
      cases hv : st.varName with
      | none =>
        dsimp only
        rw [EngM.bind_assoc]
        cases hrun : pidRun dir c s with
        | mk r s1 =>
          cases r with
          | ok outs =>
            rw [EngM.bind_ok _ hrun, EngM.bind_ok _ hrun]
            exact ih vars s1
          | error e =>
            rw [EngM.bind_error _ hrun, EngM.bind_error _ hrun]
      | some v =>
        dsimp only
        rw [EngM.bind_assoc]
        cases hrun : pidSlurp dir c s with
        | mk r s1 =>
          cases r with
          | ok out =>
            rw [EngM.bind_ok _ hrun, EngM.bind_ok _ hrun]
            exact ih _ s1
          | error e =>
            rw [EngM.bind_error _ hrun, EngM.bind_error _ hrun]

/-- A step whose resolved command gets a non-zero exit aborts the loop with
`CommandFailure`; the remaining steps contribute nothing. -/
theorem runStepsV_failStep (st : Step) (rest : List Step) (dir : String)
    (vars : List (String × String)) (s : EngineState) (c : List String)
    (hres : resolveTokens st.command vars = Except.ok c)
    (hrc : (popResponse s.responses (wrapCommand c dir)).1.1 ≠ 0) :
    runStepsV (st :: rest) dir vars s =
      (Except.error Err.commandFailure, pspState (wrapCommand c dir) s) := by
  rw [runStepsV, hres]
  rw [EngM.bind_ok _ (liftExcept_eq (Except.ok c) s)]
  cases hv : st.varName with
  | none =>
    dsimp only
    rw [EngM.bind_error _ (pidRun_fail dir c s hrc)]
  | some v =>
    dsimp only
    rw [EngM.bind_error _ (pidSlurp_fail dir c s hrc)]

theorem pspRunUnit_eq (c : List String) (s : EngineState) :
    (pspRun c >>= fun _ => (pure () : EngM Unit)) s =
      ((if (popResponse s.responses c).1.1 ≠ 0 then Except.error Err.commandFailure
        else Except.ok ()), pspState c s) := by
  by_cases hc : (popResponse s.responses c).1.1 = 0
  · rw [EngM.bind_ok _ (pspRun_ok c s hc), EngM.pure_def]
    simp [hc]
  · rw [EngM.bind_error _ (pspRun_fail c s hc)]
    simp [hc]

theorem tryFinally_error2 {α : Type} {body : EngM α} {fin : EngM Unit}
    {s s1 s2 : EngineState} {e e2 : Err}
    (h : body s = (Except.error e, s1)) (h2 : fin s1 = (Except.error e2, s2)) :
    tryFinally body fin s = (Except.error e2, s2) := by
  simp [tryFinally, h, h2]

/-- A stage run whose body raises: the workspace is still removed, and the
raised error survives unless the removal itself fails with `CommandFailure`. -/
theorem stageExecutionRun_bodyFail (q : Pipeline) (s : EngineState) (ws : String)
    (s1 sF : EngineState) (e : Err)
    (hEnter : pspSlurp workspaceCreateCommand (postCreate s) = (Except.ok ws, s1))
    (hbody : (runStepsV q.steps ws [] >>= fun _ => (pure () : EngM Unit)) s1 =
      (Except.error e, sF)) :
    stageExecutionRun q s =
      ((if (popResponse sF.responses ["rm", "-rf", ws]).1.1 ≠ 0
        then Except.error Err.commandFailure else Except.error e),
       pspState ["rm", "-rf", ws] sF) := by
  rw [stageExecutionRun, EngM.bind_ok _ (dbCreate_eq s)]
  rw [withWorkspace, EngM.bind_ok _ hEnter]
  by_cases hc : (popResponse sF.responses ["rm", "-rf", ws]).1.1 = 0
  · rw [tryFinally_error hbody
      (show (pspRun ["rm", "-rf", ws] >>= fun _ => (pure () : EngM Unit)) sF =
        (Except.ok (), pspState ["rm", "-rf", ws] sF) from by
        rw [pspRunUnit_eq]; simp [hc])]
    simp [hc]
  · rw [tryFinally_error2 hbody
      (show (pspRun ["rm", "-rf", ws] >>= fun _ => (pure () : EngM Unit)) sF =
        (Except.error Err.commandFailure, pspState ["rm", "-rf", ws] sF) from by
        rw [pspRunUnit_eq]; simp [hc])]
    simp [hc]

/-- Claim C3: if a step's process exits non-zero, the whole stage run is
indistinguishable from the run of the pipeline truncated right after the
failing step — so no `PROCESS` event of any later step is ever emitted —
the run raises `CommandFailure`, and the workspace removal command
`rm -rf <workspace>` is still emitted before the engine returns. -/
theorem c3_fail_fast_cleanup (p : Pipeline) (s : EngineState) (l1 : List Step) (st : Step)
    (l2 : List Step) (ws : String) (v : List (String × String)) (s1 s2 : EngineState)
    (c : List String)
    (hsteps : p.steps = l1 ++ st :: l2)
    (hEnter : pspSlurp workspaceCreateCommand (postCreate s) = (Except.ok ws, s1))
    (hPre : runStepsV l1 ws [] s1 = (Except.ok v, s2))
    (hRes : resolveTokens st.command v = Except.ok c)
    (hFail : (popResponse s2.responses (wrapCommand c ws)).1.1 ≠ 0) :
    stageExecutionRun p s = stageExecutionRun (Pipeline.mk p.pname (l1 ++ [st])) s ∧
    (stageExecutionRun p s).1 = Except.error Err.commandFailure ∧
    Event.process ["rm", "-rf", ws] ∈ (stageExecutionRun p s).2.events := by
  have hbody : ∀ tail : List Step,
      (runStepsV (l1 ++ st :: tail) ws [] >>= fun _ => (pure () : EngM Unit)) s1 =
        (Except.error Err.commandFailure, pspState (wrapCommand c ws) s2) := by
    intro tail
    refine EngM.bind_error _ ?_
    rw [runStepsV_append, EngM.bind_ok _ hPre]
    exact runStepsV_failStep st tail ws v s2 c hRes hFail
  have hq : ∀ (q : Pipeline) (tail : List Step), q.steps = l1 ++ st :: tail →
      stageExecutionRun q s =
        ((if (popResponse (pspState (wrapCommand c ws) s2).responses ["rm", "-rf", ws]).1.1 ≠ 0
          then Except.error Err.commandFailure else Except.error Err.commandFailure),
         pspState ["rm", "-rf", ws] (pspState (wrapCommand c ws) s2)) := by
    intro q tail hqs
    refine stageExecutionRun_bodyFail q s ws s1 _ _ hEnter ?_
    rw [hqs]
    exact hbody tail
  have h1 := hq p l2 hsteps
  have h2 := hq (Pipeline.mk p.pname (l1 ++ [st])) [] rfl
  refine ⟨h1.trans h2.symm, ?_, ?_⟩
  · rw [h1]
    simp
  · rw [h1]
    simp [pspState]

/-- Witness for claim C3: two literal steps `a` then `b`; `a` exits 1, so
the run equals the truncated run and still removes the workspace. -/
theorem c3_fail_fast_cleanup_witness :
    (popResponse
      (runStepsV [] "/w" []
        (pspSlurp workspaceCreateCommand (postCreate (initState
          (Pipeline.mk "P" [Step.mk [Tok.lit "a"] none, Step.mk [Tok.lit "b"] none])
          [Response.mk ["mktemp", "-d"] (some ["/w"]) none,
           Response.mk (wrapCommand ["a"] "/w") none (some 1)]))).2).2.responses
      (wrapCommand ["a"] "/w")).1.1 ≠ 0 ∧
    (stageExecutionRun
      (Pipeline.mk "P" [Step.mk [Tok.lit "a"] none, Step.mk [Tok.lit "b"] none])
      (initState
        (Pipeline.mk "P" [Step.mk [Tok.lit "a"] none, Step.mk [Tok.lit "b"] none])
        [Response.mk ["mktemp", "-d"] (some ["/w"]) none,
         Response.mk (wrapCommand ["a"] "/w") none (some 1)])).1 =
      Except.error Err.commandFailure :=
  ⟨by decide,
   (c3_fail_fast_cleanup
     (Pipeline.mk "P" [Step.mk [Tok.lit "a"] none, Step.mk [Tok.lit "b"] none])
     (initState
       (Pipeline.mk "P" [Step.mk [Tok.lit "a"] none, Step.mk [Tok.lit "b"] none])
       [Response.mk ["mktemp", "-d"] (some ["/w"]) none,
        Response.mk (wrapCommand ["a"] "/w") none (some 1)])
     [] (Step.mk [Tok.lit "a"] none) [Step.mk [Tok.lit "b"] none] "/w" []
     (pspSlurp workspaceCreateCommand (postCreate (initState
       (Pipeline.mk "P" [Step.mk [Tok.lit "a"] none, Step.mk [Tok.lit "b"] none])
       [Response.mk ["mktemp", "-d"] (some ["/w"]) none,
        Response.mk (wrapCommand ["a"] "/w") none (some 1)]))).2
     (pspSlurp workspaceCreateCommand (postCreate (initState
       (Pipeline.mk "P" [Step.mk [Tok.lit "a"] none, Step.mk [Tok.lit "b"] none])
       [Response.mk ["mktemp", "-d"] (some ["/w"]) none,
        Response.mk (wrapCommand ["a"] "/w") none (some 1)]))).2
     ["a"] rfl rfl rfl rfl (by decide)).2.1⟩

/-- A step whose command resolution hits an unbound variable raises the
`KeyError` before anything of the step runs. -/
theorem runStepsV_resolveFail (st : Step) (rest : List Step) (dir : String)
    (vars : List (String × String)) (s : EngineState) (e : Err)
    (hres : resolveTokens st.command vars = Except.error e) :
    runStepsV (st :: rest) dir vars s = (Except.error e, s) := by
  rw [runStepsV, hres, EngM.bind_error _ (liftExcept_eq (Except.error e) s)]

/-- Shared computation: a run hitting an unbound variable ends with an
uncaught `KeyError`, the workspace removed and the report written. -/
theorem trigger_unresolved_eq (name : String) (s : EngineState) (p : Pipeline)
    (l1 : List Step) (st : Step) (l2 : List Step) (ws n : String)
    (v : List (String × String)) (s1 s2 : EngineState)
    (hp : lookupStr s.pipelines name = some p)
    (hsteps : p.steps = l1 ++ st :: l2)
    (hEnter : pspSlurp workspaceCreateCommand
      (postCreate { s with events := s.events ++ [Event.stdoutLine ("Triggered " ++ p.pname)] }) =
      (Except.ok ws, s1))
    (hPre : runStepsV l1 ws [] s1 = (Except.ok v, s2))
    (hRes : resolveTokens st.command v = Except.error (Err.keyError n))
    (hRm : (popResponse s2.responses ["rm", "-rf", ws]).1.1 = 0) :
    engineTrigger name s =
      (Except.error (Err.keyError n),
       { pspState ["rm", "-rf", ws] s2 with
         files := ("/opt/rlci/html/index.html",
           String.intercalate "\n"
             (reportLines name (pspState ["rm", "-rf", ws] s2).stageCommands)) ::
           (pspState ["rm", "-rf", ws] s2).files }) := by
  have hbody : (runStepsV p.steps ws [] >>= fun _ => (pure () : EngM Unit)) s1 =
      (Except.error (Err.keyError n), s2) := by
    refine EngM.bind_error _ ?_
    rw [hsteps, runStepsV_append, EngM.bind_ok _ hPre]
    exact runStepsV_resolveFail st l2 ws v s2 _ hRes
  have hstage := stageExecutionRun_bodyFail p
    { s with events := s.events ++ [Event.stdoutLine ("Triggered " ++ p.pname)] }
    ws s1 s2 (Err.keyError n) hEnter hbody
  rw [if_neg (by simp [hRm])] at hstage
  rw [engineTrigger, EngM.bind_ok _ (dbGetPipeline_some name s p hp)]
  rw [EngM.bind_ok _ (printLine_eq _ s)]
  rw [tryFinally_error (catchCF_keyError (EngM.bind_error _ hstage)) (writeReport_eq name _)]

/-- Claim C2 (counterexample): with the single step `[{variable: x}]`, the
trigger does not return `False` (it does not return a boolean at all): the
`KeyError` escapes `Engine.trigger`, since only `CommandFailure` is caught
at the run boundary. -/
theorem c2_counterexample :
    (engineTrigger "test" (initState (Pipeline.mk "BAD" [Step.mk [Tok.var "x"] none])
      [Response.mk ["mktemp", "-d"] (some ["/w"]) none])).1 =
      Except.error (Err.keyError "x") ∧
    (∀ b : Bool,
      (engineTrigger "test" (initState (Pipeline.mk "BAD" [Step.mk [Tok.var "x"] none])
        [Response.mk ["mktemp", "-d"] (some ["/w"]) none])).1 ≠ Except.ok b) := by
  have h := trigger_unresolved_eq "test"
    (initState (Pipeline.mk "BAD" [Step.mk [Tok.var "x"] none])
      [Response.mk ["mktemp", "-d"] (some ["/w"]) none])
    (Pipeline.mk "BAD" [Step.mk [Tok.var "x"] none])
    [] (Step.mk [Tok.var "x"] none) [] "/w" "x" []
    (pspSlurp workspaceCreateCommand (postCreate
      { initState (Pipeline.mk "BAD" [Step.mk [Tok.var "x"] none])
          [Response.mk ["mktemp", "-d"] (some ["/w"]) none] with
        events := (initState (Pipeline.mk "BAD" [Step.mk [Tok.var "x"] none])
          [Response.mk ["mktemp", "-d"] (some ["/w"]) none]).events ++
          [Event.stdoutLine ("Triggered " ++ "BAD")] })).2
    (pspSlurp workspaceCreateCommand (postCreate
      { initState (Pipeline.mk "BAD" [Step.mk [Tok.var "x"] none])
          [Response.mk ["mktemp", "-d"] (some ["/w"]) none] with
        events := (initState (Pipeline.mk "BAD" [Step.mk [Tok.var "x"] none])
          [Response.mk ["mktemp", "-d"] (some ["/w"]) none]).events ++
          [Event.stdoutLine ("Triggered " ++ "BAD")] })).2
    rfl rfl rfl rfl rfl (by decide)
  rw [h]
  exact ⟨rfl, fun b hb => by cases hb⟩

/-- Claim C2 (amended): a step whose command contains a `{variable: n}`
token with `n` unbound aborts the run, but not like a `CommandFailure`: the
`KeyError` is not caught at the run boundary, so `Engine.trigger` raises
instead of returning `False` and no `FAIL` line is printed — the final
events are exactly those of the aborted stage run (workspace removal
included) and the report is still written. -/
theorem c2_unresolved_variable_raises (name : String) (s : EngineState) (p : Pipeline)
    (l1 : List Step) (st : Step) (l2 : List Step) (ws n : String)
    (v : List (String × String)) (s1 s2 : EngineState)
    (hp : lookupStr s.pipelines name = some p)
    (hsteps : p.steps = l1 ++ st :: l2)
    (hEnter : pspSlurp workspaceCreateCommand
      (postCreate { s with events := s.events ++ [Event.stdoutLine ("Triggered " ++ p.pname)] }) =
      (Except.ok ws, s1))
    (hPre : runStepsV l1 ws [] s1 = (Except.ok v, s2))
    (hRes : resolveTokens st.command v = Except.error (Err.keyError n))
    (hRm : (popResponse s2.responses ["rm", "-rf", ws]).1.1 = 0) :
    engineTrigger name s =
      (Except.error (Err.keyError n),
       { pspState ["rm", "-rf", ws] s2 with
         files := ("/opt/rlci/html/index.html",
           String.intercalate "\n"
             (reportLines name (pspState ["rm", "-rf", ws] s2).stageCommands)) ::
           (pspState ["rm", "-rf", ws] s2).files }) ∧
    Event.process ["rm", "-rf", ws] ∈ (engineTrigger name s).2.events := by
  have hrun := trigger_unresolved_eq name s p l1 st l2 ws n v s1 s2 hp hsteps hEnter hPre hRes hRm
  refine ⟨hrun, ?_⟩
  rw [hrun]
  simp [pspState]

/-- Witness for the amended claim C2: the single step `[{variable: x}]`. -/
theorem c2_unresolved_variable_raises_witness :
    resolveTokens [Tok.var "x"] [] = Except.error (Err.keyError "x") ∧
    (engineTrigger "test" (initState (Pipeline.mk "BAD" [Step.mk [Tok.var "x"] none])
      [Response.mk ["mktemp", "-d"] (some ["/w"]) none])).1 =
      Except.error (Err.keyError "x") :=
  ⟨rfl, by
    have h := c2_unresolved_variable_raises "test"
      (initState (Pipeline.mk "BAD" [Step.mk [Tok.var "x"] none])
        [Response.mk ["mktemp", "-d"] (some ["/w"]) none])
      (Pipeline.mk "BAD" [Step.mk [Tok.var "x"] none])
      [] (Step.mk [Tok.var "x"] none) [] "/w" "x" []
      (pspSlurp workspaceCreateCommand (postCreate
        { initState (Pipeline.mk "BAD" [Step.mk [Tok.var "x"] none])
            [Response.mk ["mktemp", "-d"] (some ["/w"]) none] with
          events := (initState (Pipeline.mk "BAD" [Step.mk [Tok.var "x"] none])
            [Response.mk ["mktemp", "-d"] (some ["/w"]) none]).events ++
            [Event.stdoutLine ("Triggered " ++ "BAD")] })).2
      (pspSlurp workspaceCreateCommand (postCreate
        { initState (Pipeline.mk "BAD" [Step.mk [Tok.var "x"] none])
            [Response.mk ["mktemp", "-d"] (some ["/w"]) none] with
          events := (initState (Pipeline.mk "BAD" [Step.mk [Tok.var "x"] none])
            [Response.mk ["mktemp", "-d"] (some ["/w"]) none]).events ++
            [Event.stdoutLine ("Triggered " ++ "BAD")] })).2
      rfl rfl rfl rfl rfl (by decide)
    rw [h.1]⟩

/-- Claim C4: a capture step with exit code 0 binds its variable to the
concatenation of the output lines with no separator, and a later
`{variable: n}` token resolves to exactly that string as one argv element
(the resolved command has one element per token; it is never re-split). -/
theorem c4_capture_joined_single_argv
    (s : EngineState) (dir : String) (ctoks : List Tok) (c : List String) (v : String)
    (vars : List (String × String)) (rest : List Step) (toks : List Tok) (l : List String)
    (hres : resolveTokens ctoks vars = Except.ok c)
    (h0 : (popResponse s.responses (wrapCommand c dir)).1.1 = 0)
    (hres2 : resolveTokens toks
      ((v, String.join ((popResponse s.responses (wrapCommand c dir)).1.2.map rstripCRLF)) :: vars) =
      Except.ok l) :
    (pidSlurp dir c s).1 =
      Except.ok (String.join ((popResponse s.responses (wrapCommand c dir)).1.2.map rstripCRLF)) ∧
    runStepsV (Step.mk ctoks (some v) :: rest) dir vars s =
      runStepsV rest dir
        ((v, String.join ((popResponse s.responses (wrapCommand c dir)).1.2.map rstripCRLF)) :: vars)
        (pspState (wrapCommand c dir) s) ∧
    l.length = toks.length ∧
    (∀ i (h1 : i < toks.length) (h2 : i < l.length), toks.get ⟨i, h1⟩ = Tok.var v →
      l.get ⟨i, h2⟩ =
        String.join ((popResponse s.responses (wrapCommand c dir)).1.2.map rstripCRLF)) := by
  refine ⟨by rw [pidSlurp_ok dir c s h0], runStepsV_capture ctoks v rest dir vars s c hres h0,
    resolveTokens_length toks _ l hres2, ?_⟩
  intro i h1 h2 hv
  have hlk := resolveTokens_var toks _ l v hres2 i h1 h2 hv
  have hhead : lookupStr
      ((v, String.join ((popResponse s.responses (wrapCommand c dir)).1.2.map rstripCRLF)) :: vars) v =
      some (String.join ((popResponse s.responses (wrapCommand c dir)).1.2.map rstripCRLF)) := by
    simp [lookupStr]
  rw [hhead] at hlk
  exact (Option.some.injEq _ _ ▸ hlk).symm

/-- Witness for claim C4: `cat path.txt` captures two output lines
`secret` and `path`; the later `cd {variable: p}` resolves to the single
argument `secretpath`. -/
theorem c4_capture_joined_single_argv_witness :
    resolveTokens [Tok.lit "cat", Tok.lit "path.txt"] [] = Except.ok ["cat", "path.txt"] ∧
    (popResponse (initState testPipelineDef
        [Response.mk (wrapCommand ["cat", "path.txt"] "/workspace") (some ["secret", "path"]) none]).responses
      (wrapCommand ["cat", "path.txt"] "/workspace")).1.1 = 0 ∧
    (["cd", "secretpath"] : List String).get ⟨1, by decide⟩ =
      String.join (((popResponse (initState testPipelineDef
        [Response.mk (wrapCommand ["cat", "path.txt"] "/workspace") (some ["secret", "path"]) none]).responses
        (wrapCommand ["cat", "path.txt"] "/workspace")).1.2).map rstripCRLF) :=
  ⟨rfl, rfl,
   (c4_capture_joined_single_argv
     (initState testPipelineDef
       [Response.mk (wrapCommand ["cat", "path.txt"] "/workspace") (some ["secret", "path"]) none])
     "/workspace" [Tok.lit "cat", Tok.lit "path.txt"] ["cat", "path.txt"] "p" [] []
     [Tok.lit "cd", Tok.var "p"] ["cd", "secretpath"] rfl rfl rfl).2.2.2 1 (by decide) (by decide) rfl⟩

theorem blocky_of_noop {α : Type} (m : EngM α) (h : ∀ s, ((m s).2).dbOps = s.dbOps) :
    BlockyOps m :=
  fun s => ⟨[], by simp [h s], by simp⟩

theorem blocky_bind {α β : Type} (m : EngM α) (f : α → EngM β)
    (hm : BlockyOps m) (hf : ∀ a, BlockyOps (f a)) : BlockyOps (m >>= f) := by
  intro s
  obtain ⟨bs1, h1, hb1⟩ := hm s
  cases hres : m s with
  | mk r s1 =>
    rw [hres] at h1
    cases r with
    | ok a =>
      obtain ⟨bs2, h2, hb2⟩ := hf a s1
      refine ⟨bs1 ++ bs2, ?_, ?_⟩
      · rw [EngM.bind_ok _ hres, h2]
        simp only at h1
        rw [h1]
        simp
      · intro b hb
        rcases List.mem_append.mp hb with hb | hb
        · exact hb1 b hb
        · exact hb2 b hb
    | error e =>
      refine ⟨bs1, ?_, hb1⟩
      rw [EngM.bind_error _ hres]
      simpa using h1

theorem blocky_tryFinally {α : Type} (body : EngM α) (fin : EngM Unit)
    (hb : BlockyOps body) (hf : BlockyOps fin) : BlockyOps (tryFinally body fin) := by
  intro s
  obtain ⟨bs1, h1, hb1⟩ := hb s
  cases hres : body s with
  | mk r s1 =>
    rw [hres] at h1
    simp only at h1
    obtain ⟨bs2, h2, hb2⟩ := hf s1
    have hmem : ∀ b ∈ bs1 ++ bs2, IsBlock b := by
      intro b hbm
      rcases List.mem_append.mp hbm with hbm | hbm
      · exact hb1 b hbm
      · exact hb2 b hbm
    cases hfin : fin s1 with
    | mk r2 s2 =>
      rw [hfin] at h2
      simp only at h2
      cases r with
      | ok a =>
        cases r2 with
        | ok u =>
          refine ⟨bs1 ++ bs2, ?_, hmem⟩
          rw [tryFinally_ok hres (by rw [hfin]), h2, h1]
          simp
        | error e2 =>
          refine ⟨bs1 ++ bs2, ?_, hmem⟩
          rw [tryFinally_ok_error hres hfin, h2, h1]
          simp
      | error e =>
        cases r2 with
        | ok u =>
          refine ⟨bs1 ++ bs2, ?_, hmem⟩
          rw [tryFinally_error hres (by rw [hfin]), h2, h1]
          simp
        | error e2 =>
          refine ⟨bs1 ++ bs2, ?_, hmem⟩
          rw [tryFinally_error2 hres (by rw [hfin]), h2, h1]
          simp

theorem blocky_pspRun (c : List String) : BlockyOps (pspRun c) := by
  intro s
  refine ⟨[DBOp.addStageCommand c ::
    (((popResponse s.responses c).1.2.map rstripCRLF).map DBOp.addStageCommandOutput ++
     [DBOp.setStageCommandReturncode (popResponse s.responses c).1.1])], ?_, ?_⟩
  · rw [pspRun_eq]
    simp
  · intro b hb
    simp only [List.mem_singleton] at hb
    subst hb
    exact ⟨c, _, _, rfl⟩

theorem blocky_pspSlurp (c : List String) : BlockyOps (pspSlurp c) := by
  rw [pspSlurp]
  exact blocky_bind _ _ (blocky_pspRun c) (fun a => blocky_of_noop _ (fun s => rfl))

theorem blocky_pidRun (dir : String) (c : List String) : BlockyOps (pidRun dir c) := by
  rw [pidRun]
  exact blocky_pspRun _

theorem blocky_pidSlurp (dir : String) (c : List String) : BlockyOps (pidSlurp dir c) := by
  rw [pidSlurp]
  exact blocky_bind _ _ (blocky_pspRun _) (fun a => blocky_of_noop _ (fun s => rfl))

theorem blocky_runStepsV (steps : List Step) (dir : String) :
    ∀ vars, BlockyOps (runStepsV steps dir vars) := by
  induction steps with
  | nil => exact fun vars => blocky_of_noop _ (fun s => rfl)
  | cons st rest ih =>
    intro vars
    have heq : runStepsV (st :: rest) dir vars =
        (liftExcept (resolveTokens st.command vars) >>= fun cmd =>
          match st.varName with
          | none => pidRun dir cmd >>= fun _ => runStepsV rest dir vars
          | some v => pidSlurp dir cmd >>= fun out => runStepsV rest dir ((v, out) :: vars)) := rfl
    rw [heq]
    refine blocky_bind _ _ (blocky_of_noop _ (fun s => rfl)) ?_
    intro cmd
    cases st.varName with
    | none => exact blocky_bind _ _ (blocky_pidRun dir cmd) (fun _ => ih vars)
    | some v => exact blocky_bind _ _ (blocky_pidSlurp dir cmd) (fun out => ih _)

theorem blocky_withWorkspace (body : String → EngM Unit)
    (hb : ∀ ws, BlockyOps (body ws)) : BlockyOps (withWorkspace body) := by
  rw [withWorkspace]
  refine blocky_bind _ _ (blocky_pspSlurp _) ?_
  intro ws
  refine blocky_tryFinally _ _ (hb ws) ?_
  exact blocky_bind _ _ (blocky_pspRun _) (fun _ => blocky_of_noop _ (fun s => rfl))

theorem createBlocky_stageExecutionRun (p : Pipeline) :
    CreateBlocky (stageExecutionRun p) := by
  intro s
  have hblk : BlockyOps (withWorkspace (fun ws => runStepsV p.steps ws [] >>= fun _ => pure ())) :=
    blocky_withWorkspace _ (fun ws =>
      blocky_bind _ _ (blocky_runStepsV p.steps ws []) (fun _ => blocky_of_noop _ (fun s => rfl)))
  obtain ⟨bs, h, hbs⟩ := hblk (postCreate s)
  refine ⟨bs, ?_, hbs⟩
  rw [show stageExecutionRun p s =
    withWorkspace (fun ws => runStepsV p.steps ws [] >>= fun _ => pure ()) (postCreate s) from
    EngM.bind_ok _ (dbCreate_eq s)]
  rw [h]
  simp [postCreate]

theorem createBlocky_bind_right {α β : Type} (m : EngM α) (f : α → EngM β)
    (hm : CreateBlocky m) (hf : ∀ a, BlockyOps (f a)) : CreateBlocky (m >>= f) := by
  intro s
  obtain ⟨bs1, h1, hb1⟩ := hm s
  cases hres : m s with
  | mk r s1 =>
    rw [hres] at h1
    simp only at h1
    cases r with
    | ok a =>
      obtain ⟨bs2, h2, hb2⟩ := hf a s1
      refine ⟨bs1 ++ bs2, ?_, ?_⟩
      · rw [EngM.bind_ok _ hres, h2, h1]
        simp
      · intro b hb
        rcases List.mem_append.mp hb with hb | hb
        · exact hb1 b hb
        · exact hb2 b hb
    | error e =>
      refine ⟨bs1, ?_, hb1⟩
      rw [EngM.bind_error _ hres]
      exact h1

theorem createBlocky_catchCF {α : Type} (body : EngM α) (hnd : EngM α)
    (hb : CreateBlocky body) (hh : BlockyOps hnd) : CreateBlocky (catchCF body hnd) := by
  intro s
  obtain ⟨bs1, h1, hb1⟩ := hb s
  cases hres : body s with
  | mk r s1 =>
    rw [hres] at h1
    simp only at h1
    cases r with
    | ok a =>
      refine ⟨bs1, ?_, hb1⟩
      rw [catchCF_ok hres]
      exact h1
    | error e =>
      cases e with
      | commandFailure =>
        obtain ⟨bs2, h2, hb2⟩ := hh s1
        refine ⟨bs1 ++ bs2, ?_, ?_⟩
        · rw [catchCF_cf hres, h2, h1]
          simp
        · intro b hbm
          rcases List.mem_append.mp hbm with hbm | hbm
          · exact hb1 b hbm
          · exact hb2 b hbm
      | keyError k =>
        refine ⟨bs1, ?_, hb1⟩
        rw [catchCF_keyError hres]
        exact h1

theorem createBlocky_tryFinally {α : Type} (body : EngM α) (fin : EngM Unit)
    (hb : CreateBlocky body) (hf : BlockyOps fin) : CreateBlocky (tryFinally body fin) := by
  intro s
  obtain ⟨bs1, h1, hb1⟩ := hb s
  cases hres : body s with
  | mk r s1 =>
    rw [hres] at h1
    simp only at h1
    obtain ⟨bs2, h2, hb2⟩ := hf s1
    have hmem : ∀ b ∈ bs1 ++ bs2, IsBlock b := by
      intro b hbm
      rcases List.mem_append.mp hbm with hbm | hbm
      · exact hb1 b hbm
      · exact hb2 b hbm
    cases hfin : fin s1 with
    | mk r2 s2 =>
      rw [hfin] at h2
      simp only at h2
      refine ⟨bs1 ++ bs2, ?_, hmem⟩
      cases r with
      | ok a =>
        cases r2 with
        | ok u =>
          rw [tryFinally_ok hres (by rw [hfin]), h2, h1]
          simp
        | error e2 =>
          rw [tryFinally_ok_error hres hfin, h2, h1]
          simp
      | error e =>
        cases r2 with
        | ok u =>
          rw [tryFinally_error hres (by rw [hfin]), h2, h1]
          simp
        | error e2 =>
          rw [tryFinally_error2 hres (by rw [hfin]), h2, h1]
          simp

theorem procEquiv_pop (rs1 rs2 : List Response) (h : ProcEquiv rs1 rs2) (c : List String) :
    (popResponse rs1 c).1 = (popResponse rs2 c).1 ∧
    ProcEquiv (popResponse rs1 c).2 (popResponse rs2 c).2 := by
  constructor
  · have h1 := h [c]
    simpa [procAnswers] using h1
  · intro cs
    have h2 := h (c :: cs)
    simp only [procAnswers, List.cons.injEq] at h2
    exact h2.2

theorem preserves_pure {α : Type} (a : α) : Preserves (pure a : EngM α) :=
  fun _ _ h => ⟨rfl, h⟩

theorem preserves_bind {α β : Type} (m : EngM α) (f : α → EngM β)
    (hm : Preserves m) (hf : ∀ a, Preserves (f a)) : Preserves (m >>= f) := by
  intro s1 s2 h
  obtain ⟨hr, hs⟩ := hm s1 s2 h
  cases h1 : m s1 with
  | mk r1 t1 =>
    cases h2 : m s2 with
    | mk r2 t2 =>
      rw [h1, h2] at hr hs
      simp only at hr hs
      cases r1 with
      | ok a =>
        cases r2 with
        | ok a2 =>
          have ha : a = a2 := by simpa using hr
          subst ha
          rw [EngM.bind_ok _ h1, EngM.bind_ok _ h2]
          exact hf a t1 t2 hs
        | error e => simp at hr
      | error e =>
        cases r2 with
        | ok a2 => simp at hr
        | error e2 =>
          have he : e = e2 := by simpa using hr
          subst he
          rw [EngM.bind_error _ h1, EngM.bind_error _ h2]
          exact ⟨rfl, hs⟩

theorem preserves_tryFinally {α : Type} (body : EngM α) (fin : EngM Unit)
    (hb : Preserves body) (hf : Preserves fin) : Preserves (tryFinally body fin) := by
  intro s1 s2 h
  obtain ⟨hr, hs⟩ := hb s1 s2 h
  cases h1 : body s1 with
  | mk r1 t1 =>
    cases h2 : body s2 with
    | mk r2 t2 =>
      rw [h1, h2] at hr hs
      simp only at hr hs
      subst hr
      obtain ⟨hr2, hs2⟩ := hf t1 t2 hs
      cases hf1 : fin t1 with
      | mk q1 u1 =>
        cases hf2 : fin t2 with
        | mk q2 u2 =>
          rw [hf1, hf2] at hr2 hs2
          simp only at hr2 hs2
          subst hr2
          cases r1 with
          | ok a =>
            cases q1 with
            | ok u =>
              rw [tryFinally_ok h1 (by rw [hf1]), tryFinally_ok h2 (by rw [hf2])]
              exact ⟨rfl, hs2⟩
            | error e2 =>
              rw [tryFinally_ok_error h1 hf1, tryFinally_ok_error h2 hf2]
              exact ⟨rfl, hs2⟩
          | error e =>
            cases q1 with
            | ok u =>
              rw [tryFinally_error h1 (by rw [hf1]), tryFinally_error h2 (by rw [hf2])]
              exact ⟨rfl, hs2⟩
            | error e2 =>
              rw [tryFinally_error2 h1 hf1, tryFinally_error2 h2 hf2]
              exact ⟨rfl, hs2⟩

theorem preserves_catchCF {α : Type} (body : EngM α) (hnd : EngM α)
    (hb : Preserves body) (hh : Preserves hnd) : Preserves (catchCF body hnd) := by
  intro s1 s2 h
  obtain ⟨hr, hs⟩ := hb s1 s2 h
  cases h1 : body s1 with
  | mk r1 t1 =>
    cases h2 : body s2 with
    | mk r2 t2 =>
      rw [h1, h2] at hr hs
      simp only at hr hs
      subst hr
      cases r1 with
      | ok a =>
        rw [catchCF_ok h1, catchCF_ok h2]
        exact ⟨rfl, hs⟩
      | error e =>
        cases e with
        | commandFailure =>
          rw [catchCF_cf h1, catchCF_cf h2]
          exact hh t1 t2 hs
        | keyError k =>
          rw [catchCF_keyError h1, catchCF_keyError h2]
          exact ⟨rfl, hs⟩

theorem preserves_printLine (t : String) : Preserves (printLine t) := by
  intro s1 s2 h
  obtain ⟨h1, h2, h3, h4, h5, h6, h7, h8⟩ := h
  simp only [StEquiv, printLine_eq]
  exact ⟨trivial, h1, by rw [h2], h3, h4, h5, h6, h7, h8⟩

theorem preserves_dbCreate : Preserves dbCreateStageCommands := by
  intro s1 s2 h
  obtain ⟨h1, h2, h3, h4, h5, h6, h7, h8⟩ := h
  simp only [StEquiv, dbCreate_eq, postCreate]
  exact ⟨trivial, h1, h2, trivial, by rw [h4], h5, h6, h7, h8⟩

theorem preserves_dbAddCmd (c : List String) : Preserves (dbAddStageCommand c) := by
  intro s1 s2 h
  obtain ⟨h1, h2, h3, h4, h5, h6, h7, h8⟩ := h
  simp only [StEquiv, dbAddCmd_eq]
  exact ⟨trivial, h1, h2, by rw [h3], by rw [h4], h5, h6, h7, h8⟩

theorem preserves_dbAddOut (l : String) : Preserves (dbAddStageCommandOutput l) := by
  intro s1 s2 h
  obtain ⟨h1, h2, h3, h4, h5, h6, h7, h8⟩ := h
  simp only [StEquiv, dbAddOut_eq]
  exact ⟨trivial, h1, h2, by rw [h3], by rw [h4], h5, h6, h7, h8⟩

theorem preserves_dbSetRc (rc : Int) : Preserves (dbSetStageCommandReturncode rc) := by
  intro s1 s2 h
  obtain ⟨h1, h2, h3, h4, h5, h6, h7, h8⟩ := h
  simp only [StEquiv, dbSetRc_eq]
  exact ⟨trivial, h1, h2, by rw [h3], by rw [h4], h5, h6, h7, h8⟩

theorem preserves_writeReport (name : String) : Preserves (writeReport name) := by
  intro s1 s2 h
  obtain ⟨h1, h2, h3, h4, h5, h6, h7, h8⟩ := h
  simp only [StEquiv, writeReport_eq]
  exact ⟨trivial, h1, h2, h3, h4, by rw [h3, h5], h6, h7, h8⟩

theorem preserves_dbGetPipeline (name : String) : Preserves (dbGetPipeline name) := by
  intro s1 s2 h
  obtain ⟨h1, h2, h3, h4, h5, h6, h7, h8⟩ := h
  rw [dbGetPipeline, dbGetPipeline, h1]
  cases hlk : lookupStr s2.pipelines name with
  | some p => exact ⟨rfl, h1, h2, h3, h4, h5, h6, h7, h8⟩
  | none => exact ⟨rfl, h1, h2, h3, h4, h5, h6, h7, h8⟩

theorem preserves_liftExcept {α : Type} (r : Except Err α) : Preserves (liftExcept r) :=
  fun _ _ h => ⟨rfl, h⟩

theorem preserves_throwErr {α : Type} (e : Err) : Preserves (throwErr e : EngM α) :=
  fun _ _ h => ⟨rfl, h⟩

theorem preserves_procPopen (c : List String) : Preserves (procPopen c) := by
  intro s1 s2 h
  obtain ⟨h1, h2, h3, h4, h5, h6, h7, h8⟩ := h
  obtain ⟨hpop, hrest⟩ := procEquiv_pop _ _ h8 c
  rw [procPopen_eq, procPopen_eq]
  exact ⟨by rw [hpop], h1, by rw [h2], h3, h4, h5, h6, h7, hrest⟩

theorem preserves_pspRun (c : List String) : Preserves (pspRun c) := by
  rw [pspRun]
  refine preserves_bind _ _ (preserves_printLine _) (fun _ => ?_)
  refine preserves_bind _ _ (preserves_dbAddCmd c) (fun _ => ?_)
  refine preserves_bind _ _ (preserves_procPopen c) (fun res => ?_)
  refine preserves_bind _ _ ?_ (fun _ => ?_)
  · show Preserves (logLines res.2)
    induction res.2 with
    | nil => exact preserves_pure ()
    | cons l ls ih =>
      rw [logLines, logLine]
      exact preserves_bind _ _
        (preserves_bind _ _ (preserves_printLine l) (fun _ => preserves_dbAddOut l))
        (fun _ => ih)
  · refine preserves_bind _ _ (preserves_dbSetRc _) (fun _ => ?_)
    by_cases hz : res.1 ≠ 0
    · simp only [if_pos hz]
      exact preserves_throwErr _
    · simp only [if_neg hz]
      exact preserves_pure _

theorem preserves_pspSlurp (c : List String) : Preserves (pspSlurp c) := by
  rw [pspSlurp]
  exact preserves_bind _ _ (preserves_pspRun c) (fun _ => preserves_pure _)

theorem preserves_runStepsV (steps : List Step) (dir : String) :
    ∀ vars, Preserves (runStepsV steps dir vars) := by
  induction steps with
  | nil => exact fun vars => preserves_pure vars
  | cons st rest ih =>
    intro vars
    have heq : runStepsV (st :: rest) dir vars =
        (liftExcept (resolveTokens st.command vars) >>= fun cmd =>
          match st.varName with
          | none => pidRun dir cmd >>= fun _ => runStepsV rest dir vars
          | some v => pidSlurp dir cmd >>= fun out => runStepsV rest dir ((v, out) :: vars)) := rfl
    rw [heq]
    refine preserves_bind _ _ (preserves_liftExcept _) ?_
    intro cmd
    cases st.varName with
    | none =>
      refine preserves_bind _ _ ?_ (fun _ => ih vars)
      rw [pidRun]
      exact preserves_pspRun _
    | some v =>
      refine preserves_bind _ _ ?_ (fun out => ih _)
      rw [pidSlurp]
      exact preserves_bind _ _ (preserves_pspRun _) (fun _ => preserves_pure _)

theorem preserves_stageExecutionRun (p : Pipeline) : Preserves (stageExecutionRun p) := by
  rw [stageExecutionRun]
  refine preserves_bind _ _ preserves_dbCreate (fun _ => ?_)
  rw [withWorkspace]
  refine preserves_bind _ _ (preserves_pspSlurp _) (fun ws => ?_)
  refine preserves_tryFinally _ _ ?_ ?_
  · exact preserves_bind _ _ (preserves_runStepsV p.steps ws []) (fun _ => preserves_pure _)
  · exact preserves_bind _ _ (preserves_pspRun _) (fun _ => preserves_pure _)

theorem preserves_engineTrigger (name : String) : Preserves (engineTrigger name) := by
  rw [engineTrigger]
  refine preserves_bind _ _ (preserves_dbGetPipeline name) (fun p => ?_)
  refine preserves_bind _ _ (preserves_printLine _) (fun _ => ?_)
  refine preserves_tryFinally _ _ ?_ (preserves_writeReport name)
  refine preserves_catchCF _ _ ?_ ?_
  · exact preserves_bind _ _ (preserves_stageExecutionRun p) (fun _ => preserves_pure _)
  · exact preserves_bind _ _ (preserves_printLine _) (fun _ => preserves_pure _)

/-- Claim C9: triggering the same pipeline from two states that agree
everywhere and whose configured process responses are equivalent (they
answer every command sequence identically) produces the same outcome, the
same full event trace, and in particular identical sequences of `PROCESS`
events. -/
theorem c9_two_run_determinism (name : String) (s1 s2 : EngineState)
    (h : StEquiv s1 s2) :
    (engineTrigger name s1).1 = (engineTrigger name s2).1 ∧
    (engineTrigger name s1).2.events = (engineTrigger name s2).2.events ∧
    processEvents (engineTrigger name s1).2.events =
      processEvents (engineTrigger name s2).2.events := by
  obtain ⟨hr, hs⟩ := preserves_engineTrigger name s1 s2 h
  exact ⟨hr, hs.2.1, by rw [hs.2.1]⟩

/-- Witness for claim C9 at the test pipeline with equal response lists. -/
theorem c9_two_run_determinism_witness :
    StEquiv (initState testPipelineDef [Response.mk ["mktemp", "-d"] (some ["/w"]) none])
      (initState testPipelineDef [Response.mk ["mktemp", "-d"] (some ["/w"]) none]) ∧
    processEvents (engineTrigger "test"
      (initState testPipelineDef [Response.mk ["mktemp", "-d"] (some ["/w"]) none])).2.events =
    processEvents (engineTrigger "test"
      (initState testPipelineDef [Response.mk ["mktemp", "-d"] (some ["/w"]) none])).2.events :=
  ⟨⟨rfl, rfl, rfl, rfl, rfl, rfl, rfl, fun _ => rfl⟩,
   (c9_two_run_determinism "test" _ _
     ⟨rfl, rfl, rfl, rfl, rfl, rfl, rfl, fun _ => rfl⟩).2.2⟩

/-- Claim C6: in every run, the DB operation trace is either empty (the
lookup failed before the run began) or one `create_stage_commands` followed
by complete blocks: each stage command is appended exactly once before its
output lines and return code, and its return code is set exactly once,
before the next stage command is appended. -/
theorem c6_stage_command_log_blocks (name : String) (s : EngineState) :
    (engineTrigger name s).2.dbOps = s.dbOps ∨
    ∃ bs : List (List DBOp),
      (engineTrigger name s).2.dbOps = s.dbOps ++ DBOp.createStageCommands :: bs.flatten ∧
      ∀ b ∈ bs, IsBlock b := by
  cases hlk : lookupStr s.pipelines name with
  | none =>
    left
    rw [engineTrigger, EngM.bind_error _ (dbGetPipeline_none name s hlk)]
  | some p =>
    right
    have hCB : CreateBlocky (tryFinally
        (catchCF (stageExecutionRun p >>= fun _ => (pure true : EngM Bool))
          (printLine "FAIL" >>= fun _ => (pure false : EngM Bool)))
        (writeReport name)) := by
      refine createBlocky_tryFinally _ _ ?_ (blocky_of_noop _ (fun s0 => rfl))
      refine createBlocky_catchCF _ _ ?_ ?_
      · exact createBlocky_bind_right _ _ (createBlocky_stageExecutionRun p)
          (fun _ => blocky_of_noop _ (fun s0 => rfl))
      · exact blocky_bind _ _ (blocky_of_noop _ (fun s0 => rfl))
          (fun _ => blocky_of_noop _ (fun s0 => rfl))
    obtain ⟨bs, hb, hbb⟩ :=
      hCB { s with events := s.events ++ [Event.stdoutLine ("Triggered " ++ p.pname)] }
    refine ⟨bs, ?_, hbb⟩
    rw [engineTrigger, EngM.bind_ok _ (dbGetPipeline_some name s p hlk)]
    rw [EngM.bind_ok _ (printLine_eq _ s)]
    exact hb

/-- Witness for claim C5: a pipeline with no steps and `mktemp -d`
configured to exit 99. -/
theorem c5_acquire_failure_no_release_witness :
    lookupStr (initState (Pipeline.mk "X" []) [Response.mk ["mktemp", "-d"] none (some 99)]).pipelines
      "test" = some (Pipeline.mk "X" []) ∧
    (popResponse (initState (Pipeline.mk "X" []) [Response.mk ["mktemp", "-d"] none (some 99)]).responses
      workspaceCreateCommand).1.1 ≠ 0 ∧
    (engineTrigger "test"
      (initState (Pipeline.mk "X" []) [Response.mk ["mktemp", "-d"] none (some 99)])).1 =
      Except.ok false :=
  ⟨rfl, by decide,
   (c5_acquire_failure_no_release "test"
     (initState (Pipeline.mk "X" []) [Response.mk ["mktemp", "-d"] none (some 99)])
     (Pipeline.mk "X" []) rfl (by decide)).1⟩

/-! ### Job controller lemmas -/

theorem rtrok_split (tasks : List JTask) :
    ∀ (u : List JEvent) (e : JEvent) (v : List JEvent), RTrOK tasks (u ++ e :: v) →
      (∀ b, evIsFor e b → ∀ a, DirectDep tasks b a →
        ∃ st, JEvent.finishedTask a st ∈ v) ∧ RTrOK tasks v := by
  intro u
  induction u with
  | nil =>
    intro e v h
    exact ⟨h.1, h.2⟩
  | cons u0 u2 ih =>
    intro e v h
    exact ih e v h.2

theorem finBefore_mono {tr Δ : List JEvent} {a : String} (h : FinBefore tr a) :
    FinBefore (tr ++ Δ) a := by
  obtain ⟨st, hm⟩ := h
  exact ⟨st, List.mem_append.mpr (Or.inl hm)⟩

theorem traceOK_snoc {tasks : List JTask} {tr : List JEvent} (h : TraceOK tasks tr)
    (e : JEvent)
    (hdeps : ∀ b, evIsFor e b → ∀ a, DirectDep tasks b a → FinBefore tr a) :
    TraceOK tasks (tr ++ [e]) := by
  unfold TraceOK at h ⊢
  rw [List.reverse_append]
  refine ⟨?_, h⟩
  intro b hb a hd
  obtain ⟨st, hm⟩ := hdeps b hb a hd
  exact ⟨st, List.mem_reverse.mpr hm⟩

theorem traceOK_append_list {tasks : List JTask} {tr : List JEvent} (l : List JEvent)
    (h : TraceOK tasks tr)
    (hl : ∀ e ∈ l, ∀ b, evIsFor e b → ∀ a, DirectDep tasks b a → FinBefore tr a) :
    TraceOK tasks (tr ++ l) := by
  induction l generalizing tr with
  | nil => simpa using h
  | cons e l2 ih =>
    have h1 : TraceOK tasks (tr ++ [e]) :=
      traceOK_snoc h e (fun b hb a hd => hl e (by simp) b hb a hd)
    have h2 := ih h1 (fun e2 he2 b hb a hd =>
      finBefore_mono (hl e2 (by simp [he2]) b hb a hd))
    simpa using h2

/-- Transitive dependency soundness: any event for `b` is preceded by a
terminal event for every transitive predecessor of `b`. -/
theorem rtrok_trans_gen (tasks : List JTask) (tr : List JEvent) (hok : RTrOK tasks tr)
    (a b : String) (hdep : TransDep tasks b a) :
    ∀ u e v, tr = u ++ e :: v → evIsFor e b → ∃ st, JEvent.finishedTask a st ∈ v := by
  induction hdep using Relation.TransGen.head_induction_on with
  | base h =>
    intro u e v htr hev
    subst htr
    exact (rtrok_split tasks u e v hok).1 _ hev a h
  | ih h2 hTG ihm =>
    intro u e v htr hev
    rename_i x m
    obtain ⟨deps, hokv⟩ := rtrok_split tasks u e v (htr ▸ hok)
    obtain ⟨stm, hm⟩ := deps _ hev m h2
    obtain ⟨u2, v2, hv⟩ := List.append_of_mem hm
    have htr2 : tr = (u ++ e :: u2) ++ JEvent.finishedTask m stm :: v2 := by
      rw [htr, hv]
      simp
    obtain ⟨st, hst⟩ := ihm (u ++ e :: u2) (JEvent.finishedTask m stm) v2 htr2
      (Or.inr ⟨stm, rfl⟩)
    refine ⟨st, ?_⟩
    rw [hv]
    exact List.mem_append.mpr (Or.inr (List.mem_cons.mpr (Or.inr hst)))

theorem pnf_false_mem {fins : List FinTask} {t : JTask}
    (h : predecessorsNotFinished fins t = false) :
    ∀ w ∈ t.waitFor, w ∈ finishedNames fins := by
  intro w hw
  by_contra hc
  have hT : predecessorsNotFinished fins t = true := by
    rw [predecessorsNotFinished, List.any_eq_true]
    refine ⟨w, hw, ?_⟩
    simpa using hc
  rw [h] at hT
  cases hT

theorem pfs_false_not_bad {fins : List FinTask} {t : JTask}
    (h : predFailedOrSkipped fins t = false) :
    ∀ f ∈ fins, f.1.name ∈ t.waitFor →
      (f.2 = JStatus.skipped → f.1.name ∈ t.ignoreSkip) ∧
      (f.2 = JStatus.failed → f.1.name ∈ t.ignoreFail) := by
  intro f hf hwf
  rw [predFailedOrSkipped, Bool.or_eq_false_iff] at h
  obtain ⟨hsk, hfl⟩ := h
  rw [List.any_eq_false] at hsk hfl
  have hsk2 := hsk f hf
  have hfl2 := hfl f hf
  constructor
  · intro hs
    by_contra hns
    apply hsk2
    simp [hwf, hs, hns]
  · intro hs
    by_contra hns
    apply hfl2
    simp [hwf, hs, hns]

theorem directDep_waitFor (tasks : List JTask)
    (hnd : (tasks.map JTask.name).Nodup) (t : JTask) (ht : t ∈ tasks) (a : String)
    (hd : DirectDep tasks t.name a) : a ∈ t.waitFor := by
  obtain ⟨t2, ht2, hname, ha⟩ := hd
  have := List.inj_on_of_nodup_map hnd ht2 ht hname
  rw [this] at ha
  exact ha

theorem name_unique (tasks : List JTask) (hnd : (tasks.map JTask.name).Nodup)
    {t1 t2 : JTask} (h1 : t1 ∈ tasks) (h2 : t2 ∈ tasks) (h : t1.name = t2.name) :
    t1 = t2 :=
  List.inj_on_of_nodup_map hnd h1 h2 h

theorem finishedNames_append (f1 f2 : List FinTask) :
    finishedNames (f1 ++ f2) = finishedNames f1 ++ finishedNames f2 := by
  simp [finishedNames]

theorem evIsFor_fin {x : String} {st : JStatus} {b : String}
    (h : evIsFor (JEvent.finishedTask x st) b) : b = x := by
  rcases h with h | ⟨st2, h⟩
  · cases h
  · cases h
    rfl

theorem evIsFor_disp {x b : String} (h : evIsFor (JEvent.dispatched x) b) : b = x := by
  rcases h with h | ⟨st2, h⟩
  · cases h
    rfl
  · cases h

/-- Extending the invariant by one skipped task during the promotion pass. -/
theorem promInv_skip (tasks : List JTask) (hnd : (tasks.map JTask.name).Nodup)
    (fins : List FinTask) (tr : List JEvent) (t : JTask) (ht : t ∈ tasks)
    (hnotfin : t.name ∉ finishedNames fins)
    (hpnf : predecessorsNotFinished fins t = false)
    (hinv : PromInv tasks fins tr) :
    PromInv tasks (fins ++ [(t, JStatus.skipped)])
      (tr ++ [JEvent.finishedTask t.name JStatus.skipped]) := by
  refine ⟨?_, ?_, ?_, ?_, ?_, ?_, ?_⟩
  · intro a
    rw [finishedNames_append]
    constructor
    · intro hm
      rcases List.mem_append.mp hm with hm | hm
      · exact finBefore_mono ((hinv.finIff a).mp hm)
      · have ha : a = t.name := by simpa [finishedNames] using hm
        exact ⟨JStatus.skipped, by simp [ha]⟩
    · rintro ⟨st, hm⟩
      rcases List.mem_append.mp hm with hm | hm
      · exact List.mem_append.mpr (Or.inl ((hinv.finIff a).mpr ⟨st, hm⟩))
      · have : a = t.name := by
          simp only [List.mem_singleton, JEvent.finishedTask.injEq] at hm
          exact hm.1
        refine List.mem_append.mpr (Or.inr ?_)
        simp [finishedNames, this]
  · refine traceOK_snoc hinv.trOK _ ?_
    intro b hb a hd
    have hbt : b = t.name := evIsFor_fin hb
    subst hbt
    have haw : a ∈ t.waitFor := directDep_waitFor tasks hnd t ht a hd
    exact (hinv.finIff a).mp (pnf_false_mem hpnf a haw)
  · intro f hf
    rcases List.mem_append.mp hf with hf | hf
    · exact hinv.finMem f hf
    · simp only [List.mem_singleton] at hf
      subst hf
      exact ht
  · rw [finishedNames_append]
    refine List.Nodup.append hinv.finNodup (by simp [finishedNames]) ?_
    intro a ha hb
    have : a = t.name := by simpa [finishedNames] using hb
    subst this
    exact hnotfin ha
  · intro a st
    constructor
    · intro hm
      rcases List.mem_append.mp hm with hm | hm
      · obtain ⟨f, hf, h1, h2⟩ := (hinv.finEvIff a st).mp hm
        exact ⟨f, List.mem_append.mpr (Or.inl hf), h1, h2⟩
      · simp only [List.mem_singleton, JEvent.finishedTask.injEq] at hm
        exact ⟨(t, JStatus.skipped), List.mem_append.mpr (Or.inr (by simp)),
          hm.1.symm, hm.2.symm⟩
    · rintro ⟨f, hf, h1, h2⟩
      rcases List.mem_append.mp hf with hf | hf
      · exact List.mem_append.mpr (Or.inl ((hinv.finEvIff a st).mpr ⟨f, hf, h1, h2⟩))
      · simp only [List.mem_singleton] at hf
        subst hf
        refine List.mem_append.mpr (Or.inr ?_)
        simp only at h1 h2
        simp [h1.symm, h2.symm]
  · intro f hf hst
    rcases List.mem_append.mp hf with hf | hf
    · exact List.mem_append.mpr (Or.inl (hinv.finDisp f hf hst))
    · simp only [List.mem_singleton] at hf
      subst hf
      simp at hst
  · intro b hm
    have hmtr : JEvent.dispatched b ∈ tr := by
      rcases List.mem_append.mp hm with hm | hm
      · exact hm
      · simp at hm
    obtain ⟨t2, finsC, d, h1, h2, h3, h4, h5⟩ := hinv.dispOK b hmtr
    exact ⟨t2, finsC, d ++ [(t, JStatus.skipped)], h1, h2, by rw [← h3]; simp, h4, h5⟩

theorem promote_cons_wait (t : JTask) (rest : List JTask) (fins : List FinTask)
    (tr : List JEvent) (h1 : predecessorsNotFinished fins t = true) :
    promote (t :: rest) fins tr = promote rest fins tr := by
  simp [promote, h1]

theorem promote_cons_skip (t : JTask) (rest : List JTask) (fins : List FinTask)
    (tr : List JEvent) (h1 : predecessorsNotFinished fins t = false)
    (h2 : predFailedOrSkipped fins t = true) :
    promote (t :: rest) fins tr =
      promote rest (fins ++ [(t, JStatus.skipped)])
        (tr ++ [JEvent.finishedTask t.name JStatus.skipped]) := by
  simp [promote, h1, h2]

theorem promote_cons_start (t : JTask) (rest : List JTask) (fins : List FinTask)
    (tr : List JEvent) (h1 : predecessorsNotFinished fins t = false)
    (h2 : predFailedOrSkipped fins t = false) :
    promote (t :: rest) fins tr =
      ((promote rest fins tr).1, t :: (promote rest fins tr).2.1,
       (promote rest fins tr).2.2) := by
  rcases hh : promote rest fins tr with ⟨f2, st2, tr2⟩
  simp [promote, h1, h2, hh]

/-- Full characterization of one promotion pass: the invariant is preserved,
the finished list and trace only grow (by waiting tasks and their terminal
events), and every task moved to the start list passed both `_can_start`
checks against some stage of the final finished list. -/
theorem promote_spec (tasks : List JTask) (hnd : (tasks.map JTask.name).Nodup)
    (w : List JTask) :
    ∀ (fins : List FinTask) (tr : List JEvent),
      (∀ t ∈ w, t ∈ tasks) → (w.map JTask.name).Nodup →
      (∀ t ∈ w, t.name ∉ finishedNames fins) →
      PromInv tasks fins tr →
      PromInv tasks (promote w fins tr).1 (promote w fins tr).2.2 ∧
      (∃ Δf Δt, (promote w fins tr).1 = fins ++ Δf ∧
        (promote w fins tr).2.2 = tr ++ Δt ∧
        (∀ f ∈ Δf, f.1 ∈ w) ∧
        (∀ e ∈ Δt, ∃ x st, e = JEvent.finishedTask x st)) ∧
      (∀ t ∈ (promote w fins tr).2.1, t ∈ w ∧
        ∃ finsC d, finsC ++ d = (promote w fins tr).1 ∧
          predecessorsNotFinished finsC t = false ∧
          predFailedOrSkipped finsC t = false) ∧
      ((promote w fins tr).2.1.map JTask.name).Nodup ∧
      (∀ t ∈ (promote w fins tr).2.1, t.name ∉ finishedNames (promote w fins tr).1) := by
  induction w with
  | nil =>
    intro fins tr hw hwn hwf hinv
    refine ⟨hinv, ⟨[], [], by simp [promote], by simp [promote], by simp, by simp⟩,
      ?_, ?_, ?_⟩
    · intro t ht
      simp [promote] at ht
    · simp [promote]
    · intro t ht
      simp [promote] at ht
  | cons t rest ih =>
    intro fins tr hw hwn hwf hinv
    have htT : t ∈ tasks := hw t (by simp)
    have hwr : ∀ t2 ∈ rest, t2 ∈ tasks := fun t2 h2 => hw t2 (by simp [h2])
    have hwnr : (rest.map JTask.name).Nodup := by
      simpa using hwn.of_cons
    have hnameT : t.name ∉ rest.map JTask.name := by
      have := hwn
      rw [List.map_cons, List.nodup_cons] at this
      exact this.1
    cases hpnf : predecessorsNotFinished fins t with
    | true =>
      rw [promote_cons_wait t rest fins tr hpnf]
      have := ih fins tr hwr hwnr (fun t2 h2 => hwf t2 (by simp [h2])) hinv
      obtain ⟨i1, ⟨Δf, Δt, e1, e2, e3, e4⟩, i3, i4, i5⟩ := this
      refine ⟨i1, ⟨Δf, Δt, e1, e2, fun f hf => by simp [e3 f hf], e4⟩, ?_, i4, i5⟩
      intro t2 h2
      obtain ⟨hm, hc⟩ := i3 t2 h2
      exact ⟨by simp [hm], hc⟩
    | false =>
      cases hpfs : predFailedOrSkipped fins t with
      | true =>
        rw [promote_cons_skip t rest fins tr hpnf hpfs]
        have hinv2 := promInv_skip tasks hnd fins tr t htT (hwf t (by simp)) hpnf hinv
        have hwf2 : ∀ t2 ∈ rest, t2.name ∉
            finishedNames (fins ++ [(t, JStatus.skipped)]) := by
          intro t2 h2
          rw [finishedNames_append]
          intro hm
          rcases List.mem_append.mp hm with hm | hm
          · exact hwf t2 (by simp [h2]) hm
          · have : t2.name = t.name := by simpa [finishedNames] using hm
            exact hnameT (this ▸ List.mem_map_of_mem JTask.name h2)
        have := ih (fins ++ [(t, JStatus.skipped)])
          (tr ++ [JEvent.finishedTask t.name JStatus.skipped]) hwr hwnr hwf2 hinv2
        obtain ⟨i1, ⟨Δf, Δt, e1, e2, e3, e4⟩, i3, i4, i5⟩ := this
        refine ⟨i1, ⟨(t, JStatus.skipped) :: Δf,
          JEvent.finishedTask t.name JStatus.skipped :: Δt, by simpa using e1,
          by simpa using e2, ?_, ?_⟩, ?_, i4, i5⟩
        · intro f hf
          rcases List.mem_cons.mp hf with hf | hf
          · subst hf
            simp
          · simp [e3 f hf]
        · intro e he
          rcases List.mem_cons.mp he with he | he
          · subst he
            exact ⟨t.name, JStatus.skipped, rfl⟩
          · exact e4 e he
        · intro t2 h2
          obtain ⟨hm, hc⟩ := i3 t2 h2
          exact ⟨by simp [hm], hc⟩
      | false =>
        rw [promote_cons_start t rest fins tr hpnf hpfs]
        have := ih fins tr hwr hwnr (fun t2 h2 => hwf t2 (by simp [h2])) hinv
        obtain ⟨i1, ⟨Δf, Δt, e1, e2, e3, e4⟩, i3, i4, i5⟩ := this
        refine ⟨i1, ⟨Δf, Δt, e1, e2, fun f hf => by simp [e3 f hf], e4⟩, ?_, ?_, ?_⟩
        · intro t2 h2
          rcases List.mem_cons.mp h2 with h2 | h2
          · subst h2
            exact ⟨by simp, fins, Δf, e1.symm, hpnf, hpfs⟩
          · obtain ⟨hm, hc⟩ := i3 t2 h2
            exact ⟨by simp [hm], hc⟩
        · rw [List.map_cons, List.nodup_cons]
          refine ⟨?_, i4⟩
          intro hm
          obtain ⟨t2, h2, hname⟩ := List.mem_map.mp hm
          have h2r : t2 ∈ rest := (i3 t2 h2).1
          exact hnameT (hname ▸ List.mem_map_of_mem JTask.name h2r)
        · intro t2 h2
          rcases List.mem_cons.mp h2 with h2 | h2
          · subst h2
            rw [e1, finishedNames_append]
            intro hm
            rcases List.mem_append.mp hm with hm | hm
            · exact hwf t2 (by simp) hm
            · obtain ⟨f, hf, hname⟩ := List.mem_map.mp hm
              have : f.1 ∈ rest := e3 f hf
              exact hnameT (hname ▸ List.mem_map_of_mem JTask.name this)
          · exact i5 t2 h2

/-- One controller round preserves the invariant and only appends trace. -/
theorem stepRound_inv (tasks : List JTask) (hnd : (tasks.map JTask.name).Nodup)
    (pick : List JTask → List JTask) (hperm : ∀ b : List JTask, (pick b).Perm b)
    (s : JCState) (hinv : JCInv tasks s) :
    JCInv tasks (stepRound pick s) ∧
    ∃ Δ, (stepRound pick s).trace = s.trace ++ Δ := by
  obtain ⟨hinv1, ⟨Δf, Δt, e1, e2, e3, e4⟩, hstarts, hstnodup, hstnotfin⟩ :=
    promote_spec tasks hnd s.waiting s.finished s.trace hinv.waitMem hinv.waitNodup
      hinv.waitNotFin hinv.prom
  have hS : stepRound pick s =
      { waiting := (s.waiting.filter (fun t =>
          !(((promote s.waiting s.finished s.trace).2.1.map JTask.name).contains t.name))).filter
          (fun t => !((finishedNames (promote s.waiting s.finished s.trace).1).contains t.name)),
        finished := (promote s.waiting s.finished s.trace).1 ++
          (pick (promote s.waiting s.finished s.trace).2.1).map (fun t => (t, workStatus t)),
        trace := ((promote s.waiting s.finished s.trace).2.2 ++
          ((promote s.waiting s.finished s.trace).2.1.map
            (fun t => JEvent.dispatched t.name))) ++
          (pick (promote s.waiting s.finished s.trace).2.1).map
            (fun t => JEvent.finishedTask t.name (workStatus t)) } := rfl
  have hdperm := hperm (promote s.waiting s.finished s.trace).2.1
  have hdone_mem : ∀ t ∈ pick (promote s.waiting s.finished s.trace).2.1,
      t ∈ (promote s.waiting s.finished s.trace).2.1 :=
    fun t ht => hdperm.mem_iff.mp ht
  have hstart_wait : ∀ t ∈ (promote s.waiting s.finished s.trace).2.1, t ∈ s.waiting :=
    fun t ht => (hstarts t ht).1
  have hstart_tasks : ∀ t ∈ (promote s.waiting s.finished s.trace).2.1, t ∈ tasks :=
    fun t ht => hinv.waitMem t (hstart_wait t ht)
  have hdeps1 : ∀ t2 ∈ (promote s.waiting s.finished s.trace).2.1, ∀ a,
      DirectDep tasks t2.name a →
      FinBefore (promote s.waiting s.finished s.trace).2.2 a := by
    intro t2 ht2 a hd
    have hw : a ∈ t2.waitFor := directDep_waitFor tasks hnd t2 (hstart_tasks t2 ht2) a hd
    obtain ⟨-, finsC, d, hCd, hpnf, hpfs⟩ := hstarts t2 ht2
    have hm1 : a ∈ finishedNames finsC := pnf_false_mem hpnf a hw
    have hm2 : a ∈ finishedNames (promote s.waiting s.finished s.trace).1 := by
      rw [← hCd, finishedNames_append]
      exact List.mem_append.mpr (Or.inl hm1)
    exact (hinv1.finIff a).mp hm2
  have hdoneNames : finishedNames
      ((pick (promote s.waiting s.finished s.trace).2.1).map (fun t => (t, workStatus t))) =
      (pick (promote s.waiting s.finished s.trace).2.1).map JTask.name := by
    simp [finishedNames, List.map_map, Function.comp]
  rw [hS]
  constructor
  · refine ⟨⟨?_, ?_, ?_, ?_, ?_, ?_, ?_⟩, ?_, ?_, ?_⟩
    · -- finIff
      intro a
      rw [finishedNames_append, hdoneNames]
      constructor
      · intro hm
        rcases List.mem_append.mp hm with hm | hm
        · exact finBefore_mono (finBefore_mono ((hinv1.finIff a).mp hm))
        · obtain ⟨t2, ht2, hname⟩ := List.mem_map.mp hm
          refine ⟨workStatus t2, List.mem_append.mpr (Or.inr ?_)⟩
          exact List.mem_map.mpr ⟨t2, ht2, by rw [hname]⟩
      · rintro ⟨st, hm⟩
        rcases List.mem_append.mp hm with hm | hm
        · rcases List.mem_append.mp hm with hm | hm
          · exact List.mem_append.mpr (Or.inl ((hinv1.finIff a).mpr ⟨st, hm⟩))
          · obtain ⟨t2, ht2, hev⟩ := List.mem_map.mp hm
            cases hev
        · obtain ⟨t2, ht2, hev⟩ := List.mem_map.mp hm
          refine List.mem_append.mpr (Or.inr ?_)
          have hx : t2.name = a := by
            injection hev with hx hy
          exact List.mem_map.mpr ⟨t2, ht2, hx⟩
    · -- trOK
      refine traceOK_append_list _ (traceOK_append_list _ hinv1.trOK ?_) ?_
      · intro e he b hb a hd
        obtain ⟨t2, ht2, hev⟩ := List.mem_map.mp he
        subst hev
        have hb2 : b = t2.name := evIsFor_disp hb
        subst hb2
        exact hdeps1 t2 ht2 a hd
      · intro e he b hb a hd
        obtain ⟨t2, ht2, hev⟩ := List.mem_map.mp he
        subst hev
        have hb2 : b = t2.name := evIsFor_fin hb
        subst hb2
        exact finBefore_mono (hdeps1 t2 (hdone_mem t2 ht2) a hd)
    · -- finMem
      intro f hf
      rcases List.mem_append.mp hf with hf | hf
      · exact hinv1.finMem f hf
      · obtain ⟨t2, ht2, hev⟩ := List.mem_map.mp hf
        subst hev
        exact hstart_tasks t2 (hdone_mem t2 ht2)
    · -- finNodup
      rw [finishedNames_append, hdoneNames]
      refine List.Nodup.append hinv1.finNodup ?_ ?_
      · exact ((hdperm.map JTask.name).nodup_iff).mpr hstnodup
      · intro a ha hb
        obtain ⟨t2, ht2, hname⟩ := List.mem_map.mp hb
        exact hstnotfin t2 (hdone_mem t2 ht2) (hname ▸ ha)
    · -- finEvIff
      intro a st
      constructor
      · intro hm
        rcases List.mem_append.mp hm with hm | hm
        · rcases List.mem_append.mp hm with hm | hm
          · obtain ⟨f, hf, h1, h2⟩ := (hinv1.finEvIff a st).mp hm
            exact ⟨f, List.mem_append.mpr (Or.inl hf), h1, h2⟩
          · obtain ⟨t2, ht2, hev⟩ := List.mem_map.mp hm
            cases hev
        · obtain ⟨t2, ht2, hev⟩ := List.mem_map.mp hm
          cases hev
          exact ⟨(t2, workStatus t2),
            List.mem_append.mpr (Or.inr (List.mem_map.mpr ⟨t2, ht2, rfl⟩)), rfl, rfl⟩
      · rintro ⟨f, hf, h1, h2⟩
        rcases List.mem_append.mp hf with hf | hf
        · exact List.mem_append.mpr (Or.inl (List.mem_append.mpr
            (Or.inl ((hinv1.finEvIff a st).mpr ⟨f, hf, h1, h2⟩))))
        · obtain ⟨t2, ht2, hev⟩ := List.mem_map.mp hf
          subst hev
          refine List.mem_append.mpr (Or.inr ?_)
          refine List.mem_map.mpr ⟨t2, ht2, ?_⟩
          simp only at h1 h2
          rw [h1, h2]
    · -- finDisp
      intro f hf hst
      rcases List.mem_append.mp hf with hf | hf
      · exact List.mem_append.mpr (Or.inl (List.mem_append.mpr
          (Or.inl (hinv1.finDisp f hf hst))))
      · obtain ⟨t2, ht2, hev⟩ := List.mem_map.mp hf
        subst hev
        refine List.mem_append.mpr (Or.inl (List.mem_append.mpr (Or.inr ?_)))
        exact List.mem_map.mpr ⟨t2, hdone_mem t2 ht2, rfl⟩
    · -- dispOK
      intro b hm
      rcases List.mem_append.mp hm with hm | hm
      · rcases List.mem_append.mp hm with hm | hm
        · obtain ⟨t2, finsC, d, g1, g2, g3, g4, g5⟩ := hinv1.dispOK b hm
          exact ⟨t2, finsC, d ++ (pick (promote s.waiting s.finished s.trace).2.1).map
            (fun t => (t, workStatus t)), g1, g2, by rw [← g3]; simp, g4, g5⟩
        · obtain ⟨t2, ht2, hev⟩ := List.mem_map.mp hm
          cases hev
          obtain ⟨-, finsC, d, hCd, hpnf, hpfs⟩ := hstarts t2 ht2
          exact ⟨t2, finsC, d ++ (pick (promote s.waiting s.finished s.trace).2.1).map
            (fun t => (t, workStatus t)), hstart_tasks t2 ht2, rfl, by rw [← hCd]; simp,
            hpnf, hpfs⟩
      · obtain ⟨t2, ht2, hev⟩ := List.mem_map.mp hm
        cases hev
    · -- waitMem
      intro t ht
      have h1 := List.mem_of_mem_filter ht
      exact hinv.waitMem t (List.mem_of_mem_filter h1)
    · -- waitNodup
      refine List.Nodup.sublist ?_ hinv.waitNodup
      refine List.Sublist.map JTask.name ?_
      exact (List.filter_sublist _).trans (List.filter_sublist _)
    · -- waitNotFin
      intro t ht
      have h2 : t.name ∉ finishedNames (promote s.waiting s.finished s.trace).1 := by
        simpa using List.of_mem_filter ht
      have h1 : t.name ∉ (promote s.waiting s.finished s.trace).2.1.map JTask.name := by
        simpa using List.of_mem_filter (List.mem_of_mem_filter ht)
      rw [finishedNames_append, hdoneNames]
      intro hm
      rcases List.mem_append.mp hm with hm | hm
      · exact h2 hm
      · obtain ⟨t2, ht2, hname⟩ := List.mem_map.mp hm
        have ht2s : t2 ∈ (promote s.waiting s.finished s.trace).2.1 := hdone_mem t2 ht2
        exact h1 (List.mem_map.mpr ⟨t2, ht2s, hname⟩)
  · refine ⟨Δt ++ ((promote s.waiting s.finished s.trace).2.1.map
      (fun t => JEvent.dispatched t.name)) ++
      (pick (promote s.waiting s.finished s.trace).2.1).map
        (fun t => JEvent.finishedTask t.name (workStatus t)), ?_⟩
    rw [e2]
    simp

/-- The initial controller state satisfies the round invariant. -/
theorem jcInv_init (tasks : List JTask) (hnd : (tasks.map JTask.name).Nodup) :
    JCInv tasks (initJC tasks) := by
  refine ⟨⟨?_, ?_, ?_, ?_, ?_, ?_, ?_⟩, fun t ht => ht, hnd, ?_⟩
  · intro a
    simp [initJC, finishedNames, FinBefore]
  · exact trivial
  · intro f hf
    simp [initJC] at hf
  · simp [initJC, finishedNames]
  · intro a st
    simp [initJC]
  · intro f hf
    simp [initJC] at hf
  · intro b hb
    simp [initJC] at hb
  · intro t ht
    simp [initJC, finishedNames]

/-- Iterating rounds preserves the invariant and only appends to the trace. -/
theorem jcInv_runRounds (tasks : List JTask) (hnd : (tasks.map JTask.name).Nodup) :
    ∀ (n : Nat) (pick : Nat → List JTask → List JTask),
      (∀ k b, (pick k b).Perm b) → ∀ s, JCInv tasks s →
      JCInv tasks (runRounds pick n s) ∧
      ∃ Δ, (runRounds pick n s).trace = s.trace ++ Δ := by
  intro n
  induction n with
  | zero =>
    intro pick hperm s h
    exact ⟨h, [], by simp [runRounds]⟩
  | succ n ih =>
    intro pick hperm s h
    obtain ⟨h1, Δ1, e1⟩ := stepRound_inv tasks hnd (pick 0) (hperm 0) s h
    obtain ⟨h2, Δ2, e2⟩ := ih (fun k => pick (k + 1)) (fun k b => hperm (k + 1) b)
      (stepRound (pick 0) s) h1
    refine ⟨h2, Δ1 ++ Δ2, ?_⟩
    show (runRounds (fun k => pick (k + 1)) n (stepRound (pick 0) s)).trace = _
    rw [e2, e1, List.append_assoc]

/-- Claim C7: for every DAG job with distinct task names and every pair of
tasks such that `b` transitively depends on `a` via `waitFor` edges, `a`
reaches a terminal state before `b` is dispatched: wherever the run's trace
contains a dispatched-`b` event, a finished event for `a` occurs strictly
earlier in the trace. -/
theorem c7_dependency_ordering (tasks : List JTask)
    (hnd : (tasks.map JTask.name).Nodup)
    (pick : Nat → List JTask → List JTask) (hperm : ∀ k b, (pick k b).Perm b)
    (n : Nat) (a b : String) (hdep : TransDep tasks b a)
    (t1 t2 : List JEvent)
    (htr : (jcRun pick n tasks).trace = t1 ++ JEvent.dispatched b :: t2) :
    ∃ st, JEvent.finishedTask a st ∈ t1 := by
  have hinv : JCInv tasks (jcRun pick n tasks) :=
    (jcInv_runRounds tasks hnd n pick hperm (initJC tasks) (jcInv_init tasks hnd)).1
  have hok : RTrOK tasks (jcRun pick n tasks).trace.reverse := hinv.prom.trOK
  have hrev : (jcRun pick n tasks).trace.reverse =
      t2.reverse ++ JEvent.dispatched b :: t1.reverse := by
    rw [htr]
    simp
  obtain ⟨st, hst⟩ := rtrok_trans_gen tasks _ hok a b hdep t2.reverse _ t1.reverse
    hrev (Or.inl rfl)
  exact ⟨st, List.mem_reverse.mp hst⟩

/-- Witness for C7 on the concrete two-task chain: `B` waits for `A`, the
run dispatches `A`, finishes it, then dispatches `B`; the theorem yields a
terminal event for `A` in the part of the trace before `dispatched B`. -/
theorem c7_dependency_ordering_witness :
    ∃ st, JEvent.finishedTask "A" st ∈
      [JEvent.dispatched "A", JEvent.finishedTask "A" JStatus.ok] :=
  c7_dependency_ordering chainTasks (by decide) pickId
    (fun _ b => List.Perm.refl b) 2 "A" "B"
    (Relation.TransGen.single ⟨⟨"B", ["A"], [], [], false⟩, by decide, rfl, by decide⟩)
    [JEvent.dispatched "A", JEvent.finishedTask "A" JStatus.ok]
    [JEvent.finishedTask "B" JStatus.ok]
    (by decide)

/-- Claim C8 counterexample: in the concrete job where `G` fails, `P` waits
for `G` but whitelists it in `ignoreFail`, and `B` waits for `P`, the task
`B` has the failed ancestor `G` which is absent from the `ignoreFail` list
of `B`, yet `B` is dispatched and finishes `ok`: whitelisting at the intermediate
task `P` absorbs the failure, so the skip does not cascade to every
descendant as the claim requires. -/
theorem c8_counterexample :
    TransDep cascadeTasks "B" "G" ∧
    JEvent.finishedTask "G" JStatus.failed ∈ (jcRun pickId 3 cascadeTasks).trace ∧
    "G" ∉ (JTask.mk "B" ["P"] [] [] false).ignoreFail ∧
    JEvent.dispatched "B" ∈ (jcRun pickId 3 cascadeTasks).trace ∧
    JEvent.finishedTask "B" JStatus.ok ∈ (jcRun pickId 3 cascadeTasks).trace := by
  refine ⟨?_, by decide, by decide, by decide, by decide⟩
  exact Relation.TransGen.head
    ⟨⟨"B", ["P"], [], [], false⟩, by decide, rfl, by decide⟩
    (Relation.TransGen.single ⟨⟨"P", ["G"], ["G"], [], false⟩, by decide, rfl, by decide⟩)

/-- Claim C8, amended to direct predecessors: if task `B` waits for `A`
directly, `A` reaches the terminal state failed while absent from
`B.ignoreFail` (or skipped while absent from `B.ignoreSkip`), then the work
of `B` is never dispatched and the only terminal status `B` can reach is
skipped; the cascade to descendants then proceeds link by link through
non-whitelisted edges by reapplying this law. -/
theorem c8_direct_predecessor_skip (tasks : List JTask)
    (hnd : (tasks.map JTask.name).Nodup)
    (pick : Nat → List JTask → List JTask) (hperm : ∀ k b, (pick k b).Perm b)
    (n : Nat) (B : JTask) (A : String) (stA : JStatus)
    (hB : B ∈ tasks) (hA : A ∈ B.waitFor)
    (hfin : JEvent.finishedTask A stA ∈ (jcRun pick n tasks).trace)
    (hbad : (stA = JStatus.failed ∧ A ∉ B.ignoreFail) ∨
            (stA = JStatus.skipped ∧ A ∉ B.ignoreSkip)) :
    JEvent.dispatched B.name ∉ (jcRun pick n tasks).trace ∧
    ∀ st, JEvent.finishedTask B.name st ∈ (jcRun pick n tasks).trace →
      st = JStatus.skipped := by
  have hinv : JCInv tasks (jcRun pick n tasks) :=
    (jcInv_runRounds tasks hnd n pick hperm (initJC tasks) (jcInv_init tasks hnd)).1
  have hnodisp : JEvent.dispatched B.name ∉ (jcRun pick n tasks).trace := by
    intro hdisp
    obtain ⟨t, finsC, d, htT, htn, hCd, hpnf, hpfs⟩ := hinv.prom.dispOK _ hdisp
    have ht : t = B := name_unique tasks hnd htT hB htn
    subst ht
    have hAc : A ∈ finishedNames finsC := pnf_false_mem hpnf A hA
    simp only [finishedNames] at hAc
    obtain ⟨f, hfC, hfname⟩ := List.mem_map.mp hAc
    have hnb := pfs_false_not_bad hpfs f hfC (by rw [hfname]; exact hA)
    obtain ⟨fA, hfA, hfAn, hfAs⟩ := (hinv.prom.finEvIff A stA).mp hfin
    have hfFin : f ∈ (jcRun pick n tasks).finished := by
      rw [← hCd]
      exact List.mem_append.mpr (Or.inl hfC)
    have hndf := hinv.prom.finNodup
    simp only [finishedNames] at hndf
    have hff : f = fA :=
      List.inj_on_of_nodup_map hndf hfFin hfA (by rw [hfname, hfAn])
    have hfst : f.2 = stA := by rw [hff]; exact hfAs
    rcases hbad with ⟨hst, hni⟩ | ⟨hst, hni⟩
    · exact hni (by rw [← hfname]; exact hnb.2 (by rw [hfst]; exact hst))
    · exact hni (by rw [← hfname]; exact hnb.1 (by rw [hfst]; exact hst))
  refine ⟨hnodisp, ?_⟩
  intro st hstm
  by_contra hne
  obtain ⟨f, hf, h1, h2⟩ := (hinv.prom.finEvIff B.name st).mp hstm
  have hd := hinv.prom.finDisp f hf (by rw [h2]; exact hne)
  rw [h1] at hd
  exact hnodisp hd

/-- Witness for the amended C8 on the failing two-task chain: `A` fails,
`B` waits for `A` without whitelisting it, so `B` is never dispatched and
only ever finishes skipped. -/
theorem c8_direct_predecessor_skip_witness :
    JEvent.dispatched "B" ∉ (jcRun pickId 2 failChainTasks).trace ∧
    ∀ st, JEvent.finishedTask "B" st ∈ (jcRun pickId 2 failChainTasks).trace →
      st = JStatus.skipped :=
  c8_direct_predecessor_skip failChainTasks (by decide) pickId
    (fun _ b => List.Perm.refl b) 2 ⟨"B", ["A"], [], [], false⟩ "A" JStatus.failed
    (by decide) (by decide) (by decide)
    (Or.inl ⟨rfl, by decide⟩)

end RLCI
